/-
Verification of the deterministic feedback-selection core of the
wireframe-critic tool.

The definitions below are a shallow embedding of
`src/utils/feedbackGenerator.js`, `src/data/feedbackPhrases.js` and
`src/utils/nextTestStepsGenerator.js` (current versions).  JavaScript
strings are modelled as Lean `String`s; all character-level work
(hashing, lowercasing, trimming, pattern scanning) is done on the list
of UTF-16 code units (`List Nat`; every character appearing in the
repository's data is in the Basic Multilingual Plane, where code unit =
code point).  JavaScript 32-bit integer arithmetic (`| 0`) is modelled
with explicit wrapping on `Int`; `Math.abs` with `Int.natAbs`.  The
JavaScript `%` operator is `Int.tmod` (truncated remainder).  Case
mapping is restricted to ASCII, which agrees with JavaScript on every
string the program manipulates.
-/
import Mathlib

set_option maxRecDepth 1000000

namespace WFC

/-- UTF-16 code units of a string (all repository data is in the BMP). -/
def codes (s : String) : List Nat := s.data.map Char.toNat

/-- ASCII lower-casing of one code unit, as in `String.prototype.toLowerCase`
restricted to ASCII letters. -/
def lowerCode (c : Nat) : Nat := if 65 ≤ c ∧ c ≤ 90 then c + 32 else c

/-- JavaScript whitespace (the set recognised by `String.prototype.trim`
and the regex class `\s`). -/
def isWsCode (c : Nat) : Bool :=
  c == 9 || c == 10 || c == 11 || c == 12 || c == 13 || c == 32 ||
  c == 160 || c == 5760 || (8192 ≤ c && c ≤ 8202) || c == 8232 ||
  c == 8233 || c == 8239 || c == 8287 || c == 12288 || c == 65279

/-- `String.prototype.trim` on code units: strip whitespace from both ends. -/
def trimWs (l : List Nat) : List Nat :=
  ((l.dropWhile isWsCode).reverse.dropWhile isWsCode).reverse

/-- Regex word character `\w` = `[A-Za-z0-9_]`. -/
def isWordCode (c : Nat) : Bool :=
  (48 ≤ c && c ≤ 57) || (65 ≤ c && c ≤ 90) || (97 ≤ c && c ≤ 122) || c == 95

/-- ASCII digit. -/
def isDigitCode (c : Nat) : Bool := 48 ≤ c && c ≤ 57

/-- Wrap an integer to the signed 32-bit range, as the JavaScript `| 0`
coercion does. -/
def toInt32 (n : Int) : Int := (n + 2147483648) % 4294967296 - 2147483648

/-- One step of `simpleHash`, transcribed literally:
`h = ((h << 5) - h + c) | 0`.  The shift itself already wraps to 32 bits
in JavaScript. -/
def hashStepS (h : Int) (c : Nat) : Int := toInt32 (toInt32 (h * 32) - h + (c : Int))

/-- `simpleHash` transcribed literally on the signed 32-bit accumulator:
`Math.abs` of the folded hash. -/
def simpleHashSigned (l : List Nat) : Int := ((l.foldl hashStepS 0).natAbs : Int)

/-- One step of `simpleHash` on the unsigned residue `u = h mod 2^32`:
`((h << 5) - h + c) | 0` becomes `(31·u + c) mod 2^32`. -/
def hashStepU (u c : Nat) : Nat := (31 * u + c) % 4294967296

/-- `simpleHash` computed on unsigned residues (proved equal to the
literal signed transcription in `simpleHashC_eq_signed` below): fold
`hashStepU`, then take the absolute value of the signed reading. -/
def simpleHashC (l : List Nat) : Int :=
  let u := l.foldl hashStepU 0
  if u < 2147483648 then (u : Int) else ((4294967296 - u : Nat) : Int)

/-- `simpleHash` on strings. -/
def simpleHash (s : String) : Int := simpleHashC (codes s)

/-- Little-endian decimal digits, structurally recursive on a fuel
argument so that it reduces inside the kernel; the fallback branch is
unreachable when the fuel is at least the number of digits. -/
def digitsRevFuel : Nat → Nat → List Nat
  | 0, n => [n % 10]
  | fuel + 1, n => if n < 10 then [n] else n % 10 :: digitsRevFuel fuel (n / 10)

/-- Little-endian decimal digits of a natural number (each in `[0,9]`).
40 digits of fuel cover every integer value a JavaScript number can
render (16 significant digits; the hashes here have at most 10). -/
def digitsRev (n : Nat) : List Nat := digitsRevFuel 40 n

/-- Code units of the decimal representation of a natural number. -/
def decCodes (n : Nat) : List Nat := (digitsRev n).reverse.map (48 + ·)

/-- Decimal string of a natural number (agrees with JavaScript number
to-string on integer values). -/
def natDec (n : Nat) : String := String.mk ((decCodes n).map Char.ofNat)

/-- Decimal string of an integer, as JavaScript template interpolation
renders an integer-valued number. -/
def intDec (i : Int) : String := if i < 0 then "-" ++ natDec i.natAbs else natDec i.toNat

/-- Does `w` occur as a contiguous sublist of `s`?  (Substring search, the
effect of testing a regex consisting of a literal.) -/
def subsearch (s w : List Nat) : Bool :=
  w.isPrefixOf s ||
    match s with
    | [] => false
    | _ :: rest => subsearch rest w

/-- Scan for the regex `\d+%\s*(lift|fewer|per)` (a digit immediately
followed by `%`, optional whitespace, then one of the three words). -/
def pctScan : List Nat → Bool
  | [] => false
  | [_] => false
  | a :: b :: rest =>
    (isDigitCode a && b == 37 &&
      (let t := rest.dropWhile isWsCode
       (codes "lift").isPrefixOf t || (codes "fewer").isPrefixOf t ||
       (codes "per").isPrefixOf t)) ||
    pctScan (b :: rest)

/-- Scan for the regex `sc\s*1\.|sc\s*2\.|sc\s*3\.` on a lower-cased
string: `sc`, optional whitespace, then `1.`, `2.` or `3.`. -/
def scScan : List Nat → Bool
  | [] => false
  | [_] => false
  | a :: b :: rest =>
    (a == 115 && b == 99 &&
      (let t := rest.dropWhile isWsCode
       [49, 46].isPrefixOf t || [50, 46].isPrefixOf t || [51, 46].isPrefixOf t)) ||
    scScan (b :: rest)

/-- Feedback polarity (`type` field): `issue` or `positive`. -/
inductive Polarity where
  | issue : Polarity
  | positive : Polarity
deriving DecidableEq, Repr

/-- An entry of the static phrase table `feedbackPhrases.js`
(`suggestion: null` is `none`). -/
structure Phrase where
  text : String
  category : String
  ptype : Polarity
  suggestion : Option String
deriving DecidableEq, Repr

/-- A generated feedback item: a phrase plus the id assigned by the
generator (`{...phrase, id}`). -/
structure Item where
  text : String
  category : String
  ptype : Polarity
  suggestion : Option String
  id : String
deriving DecidableEq, Repr

/-- `{...p, id}`: build an item from a phrase and an id. -/
def Item.of (p : Phrase) (id : String) : Item :=
  ⟨p.text, p.category, p.ptype, p.suggestion, id⟩

/-- Forget the id of an item. -/
def Item.core (it : Item) : Phrase := ⟨it.text, it.category, it.ptype, it.suggestion⟩

/-- The lower-cased code units of ``phrase.text + ' ' + (phrase.suggestion or '')``,
the string both style classifiers inspect. -/
def styleCodes (p : Phrase) : List Nat :=
  (codes (p.text ++ " " ++ p.suggestion.getD "")).map lowerCode

/-- `isStakeholderStyle`: business/metrics vocabulary. -/
def isStakeholderStyleB (p : Phrase) : Bool :=
  let s := styleCodes p
  subsearch s (codes "conversion") || subsearch s (codes "retention") ||
  subsearch s (codes "metrics") || subsearch s (codes "roi") ||
  subsearch s (codes "funnel") || subsearch s (codes "completion rate") ||
  subsearch s (codes "abandonment") || subsearch s (codes "bounce") ||
  subsearch s (codes "drop off") || subsearch s (codes "industry avg") ||
  subsearch s (codes "viewport benchmarks") || subsearch s (codes "exit rate") ||
  subsearch s (codes "value props") || pctScan s

/-- `isAccessibilityExpertStyle`: formal accessibility-standard vocabulary. -/
def isAccessibilityExpertStyleB (p : Phrase) : Bool :=
  let s := styleCodes p
  subsearch s (codes "wcag") || scScan s ||
  subsearch s (codes "4.5:1") || subsearch s (codes "focus order") ||
  subsearch s (codes "focus visible") || subsearch s (codes "target size") ||
  subsearch s (codes "reflow") || subsearch s (codes "labels or instructions") ||
  subsearch s (codes "use of color") || subsearch s (codes "info and relationships")

/-- `isGenericStyle`: neither of the two patterns above. -/
def isGenericStyleB (p : Phrase) : Bool :=
  !(isStakeholderStyleB p) && !(isAccessibilityExpertStyleB p)

/-- The static phrase table `feedbackPhrases` (current version of
`feedbackPhrases.js`), in source order. -/
def feedbackPhrases : List Phrase := [
  ⟨"The button text is clear and action-oriented, making the primary action obvious to users.",
    "usability", .positive, none⟩,
  ⟨"This unclear CTA could reduce conversion by 10–20% (industry avg). Consider stronger action-oriented copy.",
    "usability", .issue,
    some "A/B test button copy; \x27Get started\x27 and \x27Start free trial\x27 often outperform vague labels and improve conversion."⟩,
  ⟨"Prominent social proof section aligns with high-trust patterns (+15% conversion lift in similar flows).",
    "usability", .positive, none⟩,
  ⟨"The layout feels cluttered with too many elements competing for attention.",
    "usability", .issue,
    some "Apply the 80/20 rule: highlight the most important 20% of content and de-emphasize the rest using whitespace."⟩,
  ⟨"Progressive disclosure reduces cognitive load and supports higher completion rates in signup flows.",
    "usability", .positive, none⟩,
  ⟨"Information buried below the fold typically sees 50% fewer engagements; key value props may be missed.",
    "usability", .issue,
    some "Move primary value proposition and CTA above the fold to align with viewport benchmarks."⟩,
  ⟨"Visual hierarchy is clear—headings, body text, and actions are well-distinguished.",
    "hierarchy", .positive, none⟩,
  ⟨"Typography hierarchy is weak; heading sizes don\x27t create clear distinction between levels.",
    "hierarchy", .issue,
    some "Establish a clear type scale with at least 2:1 ratio between heading levels for better scanning."⟩,
  ⟨"Clear hierarchy supports faster time-to-decision and can improve funnel metrics and conversion.",
    "hierarchy", .positive, none⟩,
  ⟨"Weak visual hierarchy can dilute CTA impact and hurt conversion; primary action should dominate.",
    "hierarchy", .issue,
    some "Use size and contrast so the main action has 2–3x visual weight over secondary elements."⟩,
  ⟨"The wireframe demonstrates strong information architecture with logical grouping of related elements.",
    "hierarchy", .positive, none⟩,
  ⟨"Related content is scattered across the layout, breaking mental models of grouping.",
    "hierarchy", .issue,
    some "Group related elements using visual proximity (closer spacing) and containers to improve cognitive load."⟩,
  ⟨"Form labels are programmatically associated (WCAG SC 3.3.2 Labels or Instructions), supporting assistive tech.",
    "accessibility", .positive, none⟩,
  ⟨"Color alone conveys meaning here, failing WCAG SC 1.4.1 Use of Color; add icons or text.",
    "accessibility", .issue,
    some "Do not rely on color alone; pair with labels, patterns, or icons so information is available to all."⟩,
  ⟨"Semantic headings meet WCAG SC 1.3.1 Info and Relationships — excellent screen reader support.",
    "accessibility", .positive, none⟩,
  ⟨"Insufficient color contrast (fails WCAG SC 1.4.3 AA 4.5:1). Risk: excludes users with low vision.",
    "accessibility", .issue,
    some "Achieve at least 4.5:1 for normal text, 3:1 for large text; use a contrast checker before build."⟩,
  ⟨"Logical tab order supports WCAG SC 2.4.3 Focus Order and makes keyboard navigation predictable.",
    "accessibility", .positive, none⟩,
  ⟨"Focus indicators may be missing or too subtle (WCAG SC 2.4.7 Focus Visible); keyboard users need clear focus.",
    "accessibility", .issue,
    some "Provide a visible focus ring (e.g. 2px outline) for all interactive elements in keyboard navigation."⟩,
  ⟨"Navigation placement is intuitive and follows common web conventions.",
    "navigation", .positive, none⟩,
  ⟨"Unclear navigation increases bounce risk; users who can\x27t find next steps often drop off and hurt retention.",
    "navigation", .issue,
    some "Add breadcrumbs or a clear \x27next step\x27 CTA to improve wayfinding and reduce exit rate."⟩,
  ⟨"Primary navigation items are concise and use language familiar to the target audience.",
    "navigation", .positive, none⟩,
  ⟨"Too many navigation options create decision paralysis—the paradox of choice.",
    "navigation", .issue,
    some "Limit top-level navigation to 5-7 items. Group secondary options in a clear menu hierarchy."⟩,
  ⟨"The back button and exit paths are clearly defined, supporting user exploration.",
    "navigation", .positive, none⟩,
  ⟨"Form fields are organized logically with related inputs grouped together.",
    "form", .positive, none⟩,
  ⟨"Required fields are not clearly marked, which may lead to form submission errors.",
    "form", .issue,
    some "Use asterisks (*) or \x27required\x27 labels, and consider inline validation for better user feedback."⟩,
  ⟨"Logical form flow and appropriate input types support higher completion rates and lower abandonment.",
    "form", .positive, none⟩,
  ⟨"Error states are not considered—users won\x27t know what went wrong if validation fails.",
    "form", .issue,
    some "Design error messages that are specific, actionable, and placed near the relevant field."⟩,
  ⟨"Long or unclear forms drive abandonment (e.g. 10–15% per extra field); consider shortening or staging.",
    "form", .issue,
    some "Use a multi-step form with progress indicator to improve completion rate and reduce perceived effort."⟩,
  ⟨"Touch targets meet or exceed 44x44 CSS px, supporting WCAG SC 2.5.5 Target Size and reducing mis-taps.",
    "mobile", .positive, none⟩,
  ⟨"Text appears too small on mobile devices and may require pinch-to-zoom, harming usability.",
    "mobile", .issue,
    some "Ensure body text is at least 16px on mobile to prevent automatic zooming and improve readability."⟩,
  ⟨"Responsive layout and reflow support WCAG SC 1.4.10 Reflow; content adapts without horizontal scroll.",
    "mobile", .positive, none⟩,
  ⟨"Horizontal scrolling is required, which breaks mobile UX patterns and frustrates users.",
    "mobile", .issue,
    some "Ensure all content fits within the viewport width. Use responsive breakpoints and flexible layouts."⟩,
  ⟨"Thumb-friendly navigation placement makes the interface easy to use one-handed.",
    "mobile", .positive, none⟩,
  ⟨"Touch targets below 44x44 CSS px can fail WCAG SC 2.5.5 Target Size (Level AAA); risk of mis-taps.",
    "mobile", .issue,
    some "Use minimum 44x44px touch targets and adequate spacing between interactive elements."⟩]

/-- A regex "word" of a keyword alternation: literal code units, with
`none` for the `.` wildcard. -/
def lit (s : String) : List (Option Nat) := (codes s).map some

/-- Does the word `w` match at the front of `s` (wildcards match any one
code unit)? -/
def atomsMatch : List Nat → List (Option Nat) → Bool
  | _, [] => true
  | [], _ :: _ => false
  | c :: cs, a :: as' =>
    (match a with
     | none => true
     | some x => c == x) && atomsMatch cs as'

/-- Is the code unit at index `i` of `s` a word character (`\w`)?
Out-of-range positions are non-word. -/
def wordAtIdx (s : List Nat) (i : Nat) : Bool := i < s.length && isWordCode (s.getD i 32)

/-- Regex word boundary `\b` at position `i` of `s`. -/
def boundaryAt (s : List Nat) (i : Nat) : Bool :=
  (if i = 0 then false else wordAtIdx s (i - 1)) != wordAtIdx s i

/-- Test of a case-insensitive word-boundary alternation
`\b(w1|w2|...)\b` against lower-cased code units `s`. -/
def testPattern (s : List Nat) (alts : List (List (Option Nat))) : Bool :=
  alts.any fun w =>
    (List.range (s.length + 1)).any fun i =>
      boundaryAt s i && atomsMatch (s.drop i) w && boundaryAt s (i + w.length)

/-- Navigation keyword alternatives. -/
def navWords : List (List (Option Nat)) :=
  [lit "nav", lit "navigation", lit "menu", lit "header", lit "footer",
   lit "sidebar", lit "breadcrumb", lit "link", lit "links"]

/-- Form keyword alternatives. -/
def formWords : List (List (Option Nat)) :=
  [lit "form", lit "input", lit "field", lit "fields", lit "button", lit "buttons",
   lit "submit", lit "textbox", lit "textarea", lit "checkbox", lit "radio",
   lit "dropdown", lit "select"]

/-- Layout/hierarchy keyword alternatives. -/
def layoutWords : List (List (Option Nat)) :=
  [lit "layout", lit "grid", lit "column", lit "columns", lit "row", lit "card",
   lit "cards", lit "section", lit "group", lit "hierarchy", lit "heading",
   lit "headings", lit "title", lit "titles"]

/-- Mobile/responsive keyword alternatives. -/
def mobileWords : List (List (Option Nat)) :=
  [lit "mobile", lit "responsive", lit "breakpoint", lit "breakpoints", lit "touch",
   lit "tap", lit "screen", lit "viewport", lit "device"]

/-- Usability keyword alternatives (`call.to.action` has two `.` wildcards). -/
def usabilityWords : List (List (Option Nat)) :=
  [lit "click", lit "interaction", lit "action", lit "cta",
   lit "call" ++ [none] ++ lit "to" ++ [none] ++ lit "action",
   lit "user", lit "users", lit "interface", lit "ui", lit "ux", lit "experience"]

/-- Accessibility keyword alternatives (`screen.reader` has a `.` wildcard). -/
def accessibilityWords : List (List (Option Nat)) :=
  [lit "accessibility", lit "accessible", lit "a11y",
   lit "screen" ++ [none] ++ lit "reader",
   lit "keyboard", lit "contrast", lit "color", lit "blind", lit "vision",
   lit "disability"]

/-- First-occurrence deduplication, keeping the first of equal elements
(`[...new Set(xs)]` keeps insertion order). -/
def setDedup (seen : List String) : List String → List String
  | [] => []
  | x :: xs => if seen.contains x then setDedup seen xs else x :: setDedup (x :: seen) xs

/-- `extractKeywords`: emit a tag for each keyword pattern that matches
the description; `null` or empty input yields `[]`. -/
def extractKeywords (description : Option String) : List String :=
  match description with
  | none => []
  | some d =>
    if d = "" then []
    else
      let s := (codes d).map lowerCode
      let kws :=
        (if testPattern s navWords then ["navigation"] else []) ++
        (if testPattern s formWords then ["form"] else []) ++
        (if testPattern s layoutWords then ["hierarchy"] else []) ++
        (if testPattern s mobileWords then ["mobile"] else []) ++
        (if testPattern s usabilityWords then ["usability"] else []) ++
        (if testPattern s accessibilityWords then ["accessibility"] else [])
      setDedup [] kws

/-- `selectRelevantCategories`: detected keywords plus the defaults
`usability` and `hierarchy`; just the defaults when no keyword matched. -/
def selectRelevantCategories (keywords : List String) : List String :=
  if keywords.length > 0 then
    setDedup [] (keywords ++ ["usability", "hierarchy"])
  else
    ["usability", "hierarchy"]

/-- The comparison a stable JavaScript `Array.prototype.sort` realises for
an ascending numeric-key comparator: strictly smaller key first, equal
keys kept in original position order. -/
def keyedLe (key : α → Int) (a b : Nat × α) : Bool :=
  decide (key a.2 < key b.2) || (key a.2 == key b.2 && a.1 ≤ b.1)

/-- Stable sort of a list ascending by an integer key: sort the
index-tagged list by (key, original index) and drop the tags.  This is
exactly what the stable JavaScript sort with comparator
`(a, b) => key(a) - key(b)` produces. -/
def sortKeyed (key : α → Int) (l : List α) : List (Nat × α) :=
  List.insertionSort (fun a b => keyedLe key a b = true) l.enum

/-- The sort key used by `selectRandomPhrases`:
`simpleHash((a.text || '') + seed)`. -/
def phraseKey (seed : Int) (p : Phrase) : Int := simpleHash (p.text ++ intDec seed)

/-- The phrase-table entries whose category is in `categories`. -/
def categoryPool (categories : List String) : List Phrase :=
  feedbackPhrases.filter fun p => categories.contains p.category

/-- The persona style restriction of `selectRandomPhrases` with its
fallback chain: Stakeholder-style phrases for `Stakeholder` (falling back
to generic ones in the same categories), Accessibility-style phrases for
`Accessibility Expert` (same fallback), generic phrases otherwise
(falling back to the unrestricted category pool). -/
def stylePool (categories : List String) (persona : String) : List Phrase :=
  if persona = "Stakeholder" then
    if ((categoryPool categories).filter isStakeholderStyleB).isEmpty then
      feedbackPhrases.filter fun p =>
        categories.contains p.category && isGenericStyleB p
    else (categoryPool categories).filter isStakeholderStyleB
  else if persona = "Accessibility Expert" then
    if ((categoryPool categories).filter isAccessibilityExpertStyleB).isEmpty then
      feedbackPhrases.filter fun p =>
        categories.contains p.category && isGenericStyleB p
    else (categoryPool categories).filter isAccessibilityExpertStyleB
  else
    if ((categoryPool categories).filter isGenericStyleB).isEmpty then
      categoryPool categories
    else (categoryPool categories).filter isGenericStyleB

/-- `selectRandomPhrases`: filter by category and persona style, order by
the seeded hash (stable on ties), slice `min(max(6, count or 6+seed%3), 8,
pool size)` entries, and assign ids `feedback-{seed}-{index}`; when even
the fallback chain leaves nothing, return the first 4 table entries with
`feedback-{seed}-fallback-{index}` ids. -/
def selectRandomPhrases (categories : List String) (count : Option Int)
    (persona : String) (seed : Int) : List Item :=
  let pool := stylePool categories persona
  if pool.isEmpty then
    (feedbackPhrases.take (min 4 feedbackPhrases.length)).enum.map fun ip =>
      Item.of ip.2 ("feedback-" ++ intDec seed ++ "-fallback-" ++ natDec ip.1)
  else
    let ordered := (sortKeyed (phraseKey seed) pool).map (·.2)
    let targetCount := count.getD (6 + Int.tmod seed 3)
    let selectedCount := min (max 6 targetCount) (min 8 (ordered.length : Int))
    ((ordered.take selectedCount.toNat).enum.map fun ip =>
      Item.of ip.2 ("feedback-" ++ intDec seed ++ "-" ++ natDec ip.1))

/-- Image metadata as consumed by the core: the two fields the code reads,
each possibly absent (`undefined`/`null`). -/
structure ImageData where
  width : Option Nat
  height : Option Nat
deriving DecidableEq, Repr

/-- The synthetic large-layout phrase appended for `width > 1920`. -/
def responsivePhrase : Phrase :=
  ⟨"Consider how this large layout adapts to smaller screens and mobile devices.",
   "mobile", .issue,
   some "Ensure responsive breakpoints are implemented and test the layout at various screen sizes."⟩

/-- Placeholder used to read a list at a guarded in-range index. -/
def defaultPhrase : Phrase := ⟨"", "", .issue, none⟩

/-- The persona-restricted `mobile`-category pool of the image heuristic,
with its fallback chain. -/
def mobileCatPool : List Phrase := feedbackPhrases.filter fun p => p.category == "mobile"

def mobilePool (persona : String) : List Phrase :=
  if persona = "Stakeholder" then
    if (mobileCatPool.filter isStakeholderStyleB).isEmpty then
      feedbackPhrases.filter fun p => p.category == "mobile" && isGenericStyleB p
    else mobileCatPool.filter isStakeholderStyleB
  else if persona = "Accessibility Expert" then
    if (mobileCatPool.filter isAccessibilityExpertStyleB).isEmpty then
      feedbackPhrases.filter fun p => p.category == "mobile" && isGenericStyleB p
    else mobileCatPool.filter isAccessibilityExpertStyleB
  else
    if (mobileCatPool.filter isGenericStyleB).isEmpty then mobileCatPool
    else mobileCatPool.filter isGenericStyleB

/-- `generateImageBasedFeedback`: for truthy width and height, a
deterministically chosen mobile phrase when `aspectRatio < 1 || width <
768`, plus the synthetic responsive note when `width > 1920`. -/
def generateImageBasedFeedback : Option ImageData → String → Int → List Item
  | none, _, _ => []
  | some img, persona, seed =>
    if img.width.getD 0 ≠ 0 ∧ img.height.getD 0 ≠ 0 then
      (if img.width.getD 0 < img.height.getD 0 ∨ img.width.getD 0 < 768 then
        if 0 < (mobilePool persona).length then
          [Item.of
            ((mobilePool persona).getD
              (Int.tmod seed ((mobilePool persona).length : Int)).natAbs defaultPhrase)
            ("feedback-image-mobile-" ++ intDec seed)]
        else []
      else []) ++
      (if img.width.getD 0 > 1920 then
        [Item.of responsivePhrase ("feedback-image-responsive-" ++ intDec seed)]
      else [])
    else []

/-- The persona to preferred-category map, defaulting to General
Designer for unknown names. -/
def preferredOf (persona : String) : List String :=
  if persona = "End-User" then ["usability", "navigation", "mobile"]
  else if persona = "Stakeholder" then ["usability", "hierarchy"]
  else if persona = "Accessibility Expert" then ["accessibility", "mobile"]
  else ["hierarchy", "usability", "navigation"]

/-- The `filterByPersona` comparator: preferred categories first, then
issues before positives, otherwise a tie. -/
def personaCmp (prefs : List String) (a b : Item) : Int :=
  let ap := prefs.contains a.category
  let bp := prefs.contains b.category
  if ap ∧ ¬bp then -1
  else if ¬ap ∧ bp then 1
  else if a.ptype = .issue ∧ b.ptype = .positive then -1
  else if a.ptype = .positive ∧ b.ptype = .issue then 1
  else 0

/-- The pair ordering a stable JavaScript sort realises for the
`filterByPersona` comparator: strictly `cmp`-smaller first, ties kept in
original position order. -/
def personaLe (prefs : List String) (a b : Nat × Item) : Bool :=
  decide (personaCmp prefs a.2 b.2 < 0) ||
    (personaCmp prefs a.2 b.2 == 0 && a.1 ≤ b.1)

/-- The stable sort underlying `filterByPersona`, keeping original
indices. -/
def filterByPersonaKeyed (feedbacks : List Item) (persona : String) :
    List (Nat × Item) :=
  List.insertionSort (fun a b => personaLe (preferredOf persona) a b = true)
    feedbacks.enum

/-- `filterByPersona`: stable-sort so preferred categories come first and,
within equal preference, issues come before positives. -/
def filterByPersona (feedbacks : List Item) (persona : String) : List Item :=
  if feedbacks.isEmpty then feedbacks
  else (filterByPersonaKeyed feedbacks persona).map (·.2)

/-- The normalized text used for deduplication:
`text.toLowerCase().trim()`, as code units. -/
def normText (s : String) : List Nat := trimWs ((codes s).map lowerCode)

/-- The duplicate-removal pass of `generateFeedback`: keep the first item
for each normalized text. -/
def dedupAux (seen : List (List Nat)) : List Item → List Item
  | [] => []
  | f :: rest =>
    if seen.contains (normText f.text) then dedupAux seen rest
    else f :: dedupAux (normText f.text :: seen) rest

/-- The image dimension key of the seed:
`"{width}-{height}"` when both fields are non-null, else the empty
string (`!= null`, not truthiness, so a zero dimension still contributes). -/
def imageKey (imageData : Option ImageData) : String :=
  match imageData with
  | none => ""
  | some img =>
    match img.width, img.height with
    | some w, some h => natDec w ++ "-" ++ natDec h
    | _, _ => ""

/-- `getInputSeed`: hash of
`description.trim() + '|' + imageKey + '|' + persona`. -/
def getInputSeed (description : Option String) (imageData : Option ImageData)
    (persona : String) : Int :=
  simpleHashC
    (trimWs (codes (description.getD "")) ++
      codes ("|" ++ imageKey imageData ++ "|" ++ persona))

/-- The working category set of the pipeline: detected keywords plus the
defaults, with `accessibility` and `mobile` forced in for the
Accessibility Expert persona. -/
def pipelineCats (description : Option String) (persona : String) : List String :=
  let cats := selectRelevantCategories (extractKeywords description)
  if persona = "Accessibility Expert" then
    cats ++ (["accessibility", "mobile"].filter fun c => !cats.contains c)
  else cats

/-- The primary selection of the pipeline (step 3). -/
def primaryStage (description : Option String) (imageData : Option ImageData)
    (persona : String) : List Item :=
  selectRandomPhrases (pipelineCats description persona) none persona
    (getInputSeed description imageData persona)

/-- The merged candidate list of `generateFeedback`: the primary selection
plus, when image metadata is present, the image heuristic's items. -/
def mergedStage (description : Option String) (imageData : Option ImageData)
    (persona : String) : List Item :=
  match imageData with
  | some img =>
    primaryStage description imageData persona ++
      generateImageBasedFeedback (some img) persona
        (getInputSeed description imageData persona)
  | none => primaryStage description imageData persona

/-- The deduplicated, persona-prioritized, 8-capped list (steps 5–7 of the
pipeline). -/
def truncatedStage (description : Option String) (imageData : Option ImageData)
    (persona : String) : List Item :=
  let deduped := dedupAux [] (mergedStage description imageData persona)
  let prioritized := filterByPersona deduped persona
  if prioritized.length > 8 then prioritized.take 8 else prioritized

/-- The style-restricted top-up pool of step 8, with its fallback chain;
`usedTexts` are the normalized texts already displayed. -/
def unusedPool (usedTexts : List (List Nat)) : List Phrase :=
  feedbackPhrases.filter fun p => !usedTexts.contains (normText p.text)

def topupPool (usedTexts : List (List Nat)) (persona : String) : List Phrase :=
  if persona = "Stakeholder" then
    if ((unusedPool usedTexts).filter isStakeholderStyleB).isEmpty then
      feedbackPhrases.filter fun p =>
        !usedTexts.contains (normText p.text) && isGenericStyleB p
    else (unusedPool usedTexts).filter isStakeholderStyleB
  else if persona = "Accessibility Expert" then
    if ((unusedPool usedTexts).filter isAccessibilityExpertStyleB).isEmpty then
      feedbackPhrases.filter fun p =>
        !usedTexts.contains (normText p.text) && isGenericStyleB p
    else (unusedPool usedTexts).filter isAccessibilityExpertStyleB
  else
    if ((unusedPool usedTexts).filter isGenericStyleB).isEmpty then
      feedbackPhrases.filter fun p => !usedTexts.contains (normText p.text)
    else (unusedPool usedTexts).filter isGenericStyleB

/-- `generateFeedback`: seed, categories, primary selection, image merge,
dedup, persona prioritization, cap at 8, and deterministic top-up to 6. -/
def generateFeedback (description : Option String) (imageData : Option ImageData)
    (persona : String) : List Item :=
  let seed := getInputSeed description imageData persona
  let feedbacks := truncatedStage description imageData persona
  if feedbacks.length < 6 ∧ feedbackPhrases.length ≥ 6 then
    let remaining := 6 - feedbacks.length
    let usedTexts := feedbacks.map fun f => normText f.text
    let pool := topupPool usedTexts persona
    let ordered :=
      (sortKeyed (fun p => simpleHash (p.text ++ intDec seed ++ "fallback")) pool).map (·.2)
    let additional := (ordered.take remaining).enum.map fun ip =>
      Item.of ip.2 ("feedback-fallback-" ++ intDec seed ++ "-" ++ natDec ip.1)
    feedbacks ++ additional
  else feedbacks

/-- ASCII lower-casing of a whole string (`String.prototype.toLowerCase`
on the ASCII categories the program uses). -/
def lowerStr (s : String) : String :=
  String.mk (s.data.map fun c => Char.ofNat (lowerCode c.toNat))

/-- `CATEGORY_LABELS[c] || c` from nextTestStepsGenerator.js. -/
def categoryLabel (c : String) : String :=
  if c = "form" then "form and input design"
  else if c = "navigation" then "navigation and wayfinding"
  else if c = "usability" then "overall usability and flow"
  else if c = "hierarchy" then "visual hierarchy and layout"
  else if c = "accessibility" then "accessibility and inclusive design"
  else if c = "mobile" then "mobile and responsive behavior"
  else c

/-- `PERSONA_TARGETS[p] || PERSONA_TARGETS['General Designer']`. -/
def personaTarget (p : String) : String :=
  if p = "End-User" then
    "Focus on new users (e.g. first-time visitors, 18–34) and task completion."
  else if p = "Stakeholder" then
    "Focus on decision-makers and key user segments that drive conversion."
  else if p = "Accessibility Expert" then
    "Include users with diverse abilities and assistive tech (screen reader, keyboard)."
  else "Focus on new users aged 18–34 and power users to compare behavior."

/-- `PERSONA_QUESTIONS[p] || PERSONA_QUESTIONS['General Designer']`. -/
def personaQuestion (p : String) : String :=
  if p = "End-User" then
    "Ask: \"Was the navigation intuitive? Could you complete the main task?\""
  else if p = "Stakeholder" then
    "Ask: \"Does this support your goals? Where would you drop off?\""
  else if p = "Accessibility Expert" then
    "Ask: \"Could you complete core tasks with your preferred technology?\""
  else "Ask: \"Was the hierarchy clear? Did the layout support the task?\""

/-- The normalized category key of an item used by the steps generator:
`(f.category || 'usability').toLowerCase()`. -/
def stepCat (f : Item) : String :=
  lowerStr (if f.category = "" then "usability" else f.category)

/-- Add one item to the per-category issue/strength tally, preserving
first-seen key order (JavaScript object insertion order). -/
def bumpCat (l : List (String × Nat × Nat)) (cat : String) (isIssue : Bool) :
    List (String × Nat × Nat) :=
  match l with
  | [] => [(cat, if isIssue then (1, 0) else (0, 1))]
  | (c, i, s) :: rest =>
    if c = cat then (c, if isIssue then (i + 1, s) else (i, s + 1)) :: rest
    else (c, i, s) :: bumpCat rest cat isIssue

/-- The `byCategory` tally of `generateNextTestSteps`. -/
def byCategory (feedbacks : List Item) : List (String × Nat × Nat) :=
  feedbacks.foldl (fun acc f => bumpCat acc (stepCat f) (f.ptype = .issue)) []

/-- The first "focus area" line. -/
def topLine (cat : String) (n : Nat) : String :=
  "Prioritize testing " ++ categoryLabel cat ++ " (" ++ natDec n ++
    " issue" ++ (if n > 1 then "s" else "") ++ " in feedback)."

/-- One step of the padding loop (`if (unique.length >= 5) break; if
(!unique.includes(f)) unique.push(f)`). -/
def padOnce (l : List String) (f : String) : List String :=
  if l.length ≥ 5 then l
  else if l.contains f then l
  else l ++ [f]

/-- The issue-bearing categories sorted by descending issue count, stable
on ties (JavaScript stable sort with comparator `b.issues - a.issues`). -/
def sortedCategories (feedbacks : List Item) : List (String × Nat × Nat) :=
  ((sortKeyed (fun e => -((e.2.1 : Int)))
      ((byCategory feedbacks).filter fun e => e.2.1 > 0)).map (·.2))

/-- `generateNextTestSteps` from nextTestStepsGenerator.js; `none` models
a non-array argument. -/
def generateNextTestSteps (feedbacks : Option (List Item)) (persona : String) :
    List String :=
  match feedbacks with
  | none =>
    ["Run a short usability test with 3–5 participants.",
     personaTarget persona, personaQuestion persona]
  | some fb =>
    if fb.isEmpty then
      ["Run a short usability test with 3–5 participants.",
       personaTarget persona, personaQuestion persona]
    else
      let sorted := sortedCategories fb
      let s1 :=
        match sorted with
        | [] => []
        | top :: _ => [topLine top.1 top.2.1]
      let s2 :=
        match sorted with
        | _ :: second :: _ => ["Also validate " ++ categoryLabel second.1 ++ "."]
        | _ => []
      let q := personaQuestion persona
      let t := personaTarget persona
      let s3 := if (s1 ++ s2).contains q then [] else [q]
      let s4 := if (s1 ++ s2 ++ s3).contains t then [] else [t]
      let present := fb.map fun f => lowerStr f.category
      let s5 :=
        if present.contains "mobile" then ["Test on mobile first, then desktop."]
        else if present.contains "form" then
          ["Test form flows on both mobile and desktop."]
        else []
      let unique := setDedup [] (s1 ++ s2 ++ s3 ++ s4 ++ s5)
      if unique.length > 5 then unique.take 5
      else if unique.length < 3 then
        (padOnce (padOnce unique "Run a short usability test with 3–5 participants.")
            "Capture where users hesitate or get stuck.").take 5
      else unique.take 5

/-- The rank realised by the `filterByPersona` comparator: preferred
categories before others, issues before positives. -/
def prefRank (prefs : List String) (it : Item) : Nat :=
  (if prefs.contains it.category then 0 else 1) * 2 +
    (if it.ptype = .issue then 0 else 1)

/-- The number of feedback items of `issue` polarity whose normalized
category key is `c`. -/
def issueCnt (fb : List Item) (c : String) : Nat :=
  fb.countP fun g => decide (stepCat g = c) && decide (g.ptype = Polarity.issue)

/-- First-match lookup of the issue tally stored for a category key. -/
def lookIss : List (String × Nat × Nat) → String → Nat
  | [], _ => 0
  | e :: r, c => if e.1 = c then e.2.1 else lookIss r c

/-- The two focus-area lines of `generateNextTestSteps`. -/
def sugg12 (fb : List Item) : List String :=
  (match sortedCategories fb with
   | [] => []
   | top :: _ => [topLine top.1 top.2.1]) ++
  (match sortedCategories fb with
   | _ :: second :: _ => ["Also validate " ++ categoryLabel second.1 ++ "."]
   | _ => [])

/-- Focus-area lines plus the persona sample question (pushed unless
already present). -/
def sugg123 (fb : List Item) (persona : String) : List String :=
  sugg12 fb ++
    (if (sugg12 fb).contains (personaQuestion persona) then []
     else [personaQuestion persona])

/-- ... plus the persona target-audience note. -/
def sugg1234 (fb : List Item) (persona : String) : List String :=
  sugg123 fb persona ++
    (if (sugg123 fb persona).contains (personaTarget persona) then []
     else [personaTarget persona])

/-- The optional device/method hint. -/
def hintSugg (fb : List Item) : List String :=
  if (fb.map fun f => lowerStr f.category).contains "mobile" then
    ["Test on mobile first, then desktop."]
  else if (fb.map fun f => lowerStr f.category).contains "form" then
    ["Test form flows on both mobile and desktop."]
  else []

/-- All raw suggestions before deduplication. -/
def suggAll (fb : List Item) (persona : String) : List String :=
  sugg1234 fb persona ++ hintSugg fb

/-- The deduplicated suggestion list (`[...new Set(suggestions)]`). -/
def uniqueSugg (fb : List Item) (persona : String) : List String :=
  setDedup [] (suggAll fb persona)

/-- The final cap-at-5 / pad-to-3 step of `generateNextTestSteps`. -/
def finalizeSteps (u : List String) : List String :=
  if u.length > 5 then u.take 5
  else if u.length < 3 then
    (padOnce (padOnce u "Run a short usability test with 3–5 participants.")
        "Capture where users hesitate or get stuck.").take 5
  else u.take 5

/-! ### Lemmas -/

theorem toInt32_eq_of_lt (u : Nat) (h : u < 4294967296) :
    toInt32 u = if u < 2147483648 then (u : Int) else (u : Int) - 4294967296 := by
  unfold toInt32
  split <;> omega

theorem hashStep_agree (u : Nat) (c : Nat) :
    hashStepS (toInt32 u) c = toInt32 (hashStepU u c) := by
  unfold hashStepS hashStepU toInt32
  omega

theorem hashStepU_lt (u c : Nat) : hashStepU u c < 4294967296 :=
  Nat.mod_lt _ (by omega)

theorem foldl_hash_agree (l : List Nat) :
    ∀ (h : Int) (u : Nat), u < 4294967296 → h = toInt32 u →
      l.foldl hashStepS h = toInt32 ((l.foldl hashStepU u : Nat) : Int) := by
  induction l with
  | nil =>
    intro h u _ hh
    rw [List.foldl_nil, List.foldl_nil]
    exact hh
  | cons c rest ih =>
    intro h u hu hh
    rw [List.foldl_cons, List.foldl_cons]
    refine ih _ (hashStepU u c) (hashStepU_lt u c) ?_
    rw [hh]
    exact hashStep_agree u c

theorem foldl_hashStepU_lt (l : List Nat) :
    ∀ u : Nat, u < 4294967296 → l.foldl hashStepU u < 4294967296 := by
  induction l with
  | nil => intro u hu; rw [List.foldl_nil]; exact hu
  | cons c rest ih =>
    intro u _
    rw [List.foldl_cons]
    exact ih _ (hashStepU_lt u c)

/-- The unsigned-residue computation of `simpleHash` agrees with the
literal signed 32-bit transcription of the source. -/
theorem simpleHashC_eq_signed (l : List Nat) : simpleHashC l = simpleHashSigned l := by
  have h1 : l.foldl hashStepS 0 = toInt32 ((l.foldl hashStepU 0 : Nat) : Int) :=
    foldl_hash_agree l 0 0 (by omega) (by unfold toInt32; omega)
  have h2 : l.foldl hashStepU 0 < 4294967296 := foldl_hashStepU_lt l 0 (by omega)
  simp only [simpleHashC, simpleHashSigned, h1]
  revert h2
  generalize l.foldl hashStepU 0 = u
  intro h2
  rw [toInt32_eq_of_lt u h2]
  by_cases hk : u < 2147483648
  · simp only [if_pos hk, Int.natAbs_ofNat]
  · rw [if_neg hk, if_neg hk,
      show ((u : Int) - 4294967296) = -(((4294967296 - u : Nat) : Int)) from by omega,
      Int.natAbs_neg, Int.natAbs_ofNat]

theorem simpleHashC_nonneg (l : List Nat) : 0 ≤ simpleHashC l := by
  unfold simpleHashC
  have := foldl_hashStepU_lt l 0 (by omega)
  dsimp only
  split <;> omega

theorem simpleHash_nonneg (s : String) : 0 ≤ simpleHash s := simpleHashC_nonneg _

/-! Decimal rendering. -/

theorem digitsRevFuel_ne_nil (fuel n : Nat) : digitsRevFuel fuel n ≠ [] := by
  cases fuel with
  | zero => simp [digitsRevFuel]
  | succ f =>
    unfold digitsRevFuel
    split <;> simp

theorem decCodes_ne_nil (n : Nat) : decCodes n ≠ [] := by
  unfold decCodes
  intro h
  rw [List.map_eq_nil_iff, List.reverse_eq_nil_iff] at h
  exact digitsRevFuel_ne_nil 40 n h

theorem digitsRevFuel_lt10 (fuel : Nat) : ∀ n d, d ∈ digitsRevFuel fuel n → d < 10 := by
  induction fuel with
  | zero =>
    intro n d hd
    simp only [digitsRevFuel, List.mem_singleton] at hd
    omega
  | succ f ih =>
    intro n d hd
    unfold digitsRevFuel at hd
    split at hd
    · simp only [List.mem_singleton] at hd; omega
    · rcases List.mem_cons.mp hd with h | h
      · omega
      · exact ih _ _ h

theorem decCodes_digits (n : Nat) : ∀ c ∈ decCodes n, 48 ≤ c ∧ c ≤ 57 := by
  intro c hc
  unfold decCodes at hc
  rcases List.mem_map.mp hc with ⟨d, hd, rfl⟩
  have := digitsRevFuel_lt10 40 n d (List.mem_reverse.mp hd)
  omega

theorem char_roundtrip : ∀ c < 128, (Char.ofNat c).toNat = c := by decide

theorem codes_mk (l : List Char) : codes (String.mk l) = l.map Char.toNat := rfl

theorem codes_natDec (n : Nat) : codes (natDec n) = decCodes n := by
  unfold natDec
  rw [codes_mk, List.map_map]
  refine List.map_congr_left ?_ |>.trans (List.map_id _)
  intro c hc
  have := decCodes_digits n c hc
  exact char_roundtrip c (by omega)

theorem codes_append (a b : String) : codes (a ++ b) = codes a ++ codes b := by
  unfold codes
  rw [String.data_append, List.map_append]

theorem intDec_of_nonneg (i : Int) (h : 0 ≤ i) : intDec i = natDec i.toNat := by
  unfold intDec
  rw [if_neg (by omega)]

/-! Prefix mismatch machinery for id analysis. -/

theorem getD_of_pre (p s : List Nat) (hp : p <+: s) (i : Nat) (hi : i < p.length) :
    s.getD i 0 = p.getD i 0 := by
  rcases hp with ⟨t, rfl⟩
  exact List.getD_append p t 0 i hi

theorem not_isPrefixOf_of_mismatch (p s : List Nat) (i : Nat) (hi : i < p.length)
    (hne : p.getD i 0 ≠ s.getD i 0) : p.isPrefixOf s = false := by
  rw [Bool.eq_false_iff]
  intro hpre
  exact hne (getD_of_pre p s (List.isPrefixOf_iff_prefix.mp hpre) i hi).symm

/-- The ids of primary, table-fallback and top-up items begin
`feedback-` followed by a decimal digit of the non-negative seed, so no
pattern whose tenth code unit is not a digit is a prefix of them. -/
theorem getD9_feedback_num (seed : Int) (hs : 0 ≤ seed) (rest : String) :
    48 ≤ (codes ("feedback-" ++ intDec seed ++ rest)).getD 9 0 ∧
      (codes ("feedback-" ++ intDec seed ++ rest)).getD 9 0 ≤ 57 := by
  rw [codes_append, codes_append, intDec_of_nonneg seed hs, codes_natDec,
    List.append_assoc,
    List.getD_append_right (codes "feedback-") _ 0 9 (by decide),
    show 9 - (codes "feedback-").length = 0 from by decide]
  rcases List.exists_cons_of_ne_nil (decCodes_ne_nil seed.toNat) with ⟨d, ds, hd⟩
  have hmem : d ∈ decCodes seed.toNat := by rw [hd]; exact List.mem_cons_self d ds
  rw [hd, List.cons_append, List.getD_cons_zero]
  exact decCodes_digits seed.toNat d hmem

/-- Code-unit form of `getD9_feedback_num` with an arbitrary tail. -/
theorem getD9_num (seed : Int) (hs : 0 ≤ seed) (rest : List Nat) :
    48 ≤ (codes "feedback-" ++ (codes (intDec seed) ++ rest)).getD 9 0 ∧
      (codes "feedback-" ++ (codes (intDec seed) ++ rest)).getD 9 0 ≤ 57 := by
  rw [List.getD_append_right (codes "feedback-") _ 0 9 (by decide),
    show 9 - (codes "feedback-").length = 0 from by decide,
    intDec_of_nonneg seed hs, codes_natDec]
  rcases List.exists_cons_of_ne_nil (decCodes_ne_nil seed.toNat) with ⟨d, ds, hd⟩
  have hmem : d ∈ decCodes seed.toNat := by rw [hd]; exact List.mem_cons_self d ds
  rw [hd, List.cons_append, List.getD_cons_zero]
  exact decCodes_digits seed.toNat d hmem

/-- No pattern whose tenth code unit is `i` (105) is a prefix of an id of
the form `feedback-{seed}...` with a non-negative seed. -/
theorem not_prefix_of_id_num (p : List Nat) (h9 : 9 < p.length) (hp : p.getD 9 0 = 105)
    (seed : Int) (hs : 0 ≤ seed) (rest : List Nat) :
    p.isPrefixOf (codes "feedback-" ++ (codes (intDec seed) ++ rest)) = false := by
  apply not_isPrefixOf_of_mismatch _ _ 9 h9
  have := getD9_num seed hs rest
  omega

/-- Nor is such a pattern a prefix of a top-up id
`feedback-fallback-{seed}-{i}`. -/
theorem not_prefix_of_id_fallback (p : List Nat) (h9 : 9 < p.length)
    (hp : p.getD 9 0 = 105) (rest : List Nat) :
    p.isPrefixOf (codes "feedback-fallback-" ++ rest) = false := by
  apply not_isPrefixOf_of_mismatch _ _ 9 h9
  rw [List.getD_append _ _ _ 9 (by decide)]
  rw [hp]
  decide

/-- `feedback-image-mobile-` is not a prefix of the responsive image id. -/
theorem not_mobilePref_responsive (rest : List Nat) :
    (codes "feedback-image-mobile-").isPrefixOf
      (codes "feedback-image-responsive-" ++ rest) = false := by
  apply not_isPrefixOf_of_mismatch _ _ 15 (by decide)
  rw [List.getD_append _ _ _ 15 (by decide)]
  decide

/-! Concrete facts about the phrase table, checked by evaluation. -/

/-- No table phrase has two entries with the same normalized text. -/
theorem table_texts_distinct :
    feedbackPhrases.Pairwise (fun a b => normText a.text ≠ normText b.text) := by decide

/-- No table phrase is classified both Accessibility-Expert style and
Stakeholder style. -/
theorem table_no_style_overlap :
    ∀ p ∈ feedbackPhrases, ¬(isAccessibilityExpertStyleB p ∧ isStakeholderStyleB p) := by
  decide

/-- Six stakeholder-style phrases live in the default categories. -/
theorem count_stakeholder_uh :
    List.countP (fun p =>
      (p.category == "usability" || p.category == "hierarchy") && isStakeholderStyleB p)
      feedbackPhrases = 6 := by decide

/-- Six generic-style phrases live in the default categories. -/
theorem count_generic_uh :
    List.countP (fun p =>
      (p.category == "usability" || p.category == "hierarchy") && isGenericStyleB p)
      feedbackPhrases = 6 := by decide

/-- Nine accessibility-style phrases live in the four categories the
Accessibility Expert persona always works with. -/
theorem count_ae_uham :
    List.countP (fun p =>
      (p.category == "usability" || p.category == "hierarchy" ||
        p.category == "accessibility" || p.category == "mobile") &&
        isAccessibilityExpertStyleB p)
      feedbackPhrases = 9 := by decide

/-- The mobile category holds three generic and three accessibility-style
phrases and no stakeholder-style phrase. -/
theorem count_mobile_styles :
    (List.countP (fun p => p.category == "mobile" && isGenericStyleB p) feedbackPhrases = 3 ∧
      List.countP (fun p => p.category == "mobile" && isAccessibilityExpertStyleB p)
        feedbackPhrases = 3) ∧
      List.countP (fun p => p.category == "mobile" && isStakeholderStyleB p)
        feedbackPhrases = 0 := by decide

/-- The synthetic responsive phrase and the placeholder match neither
style pattern. -/
theorem special_phrases_styles :
    isStakeholderStyleB responsivePhrase = false ∧
      isAccessibilityExpertStyleB responsivePhrase = false ∧
      isStakeholderStyleB defaultPhrase = false ∧
      isAccessibilityExpertStyleB defaultPhrase = false := by decide

/-! Style pool lemmas. -/

theorem stylePool_sublist (cats : List String) (persona : String) :
    (stylePool cats persona).Sublist feedbackPhrases := by
  unfold stylePool categoryPool
  split
  · split
    · exact List.filter_sublist _
    · exact (List.filter_sublist _).trans (List.filter_sublist _)
  · split
    · split
      · exact List.filter_sublist _
      · exact (List.filter_sublist _).trans (List.filter_sublist _)
    · split
      · exact List.filter_sublist _
      · exact (List.filter_sublist _).trans (List.filter_sublist _)

theorem countP_le_length_filter (l : List Phrase) (p q : Phrase → Bool)
    (h : ∀ a ∈ l, p a → q a) : List.countP p l ≤ (l.filter q).length := by
  rw [← List.countP_eq_length_filter]
  exact List.countP_mono_left h

theorem stylePool_stakeholder_len (cats : List String)
    (hu : "usability" ∈ cats) (hh : "hierarchy" ∈ cats) :
    6 ≤ (stylePool cats "Stakeholder").length := by
  have key : 6 ≤ ((categoryPool cats).filter isStakeholderStyleB).length := by
    unfold categoryPool
    rw [List.filter_filter]
    refine le_trans (le_of_eq count_stakeholder_uh.symm)
      (countP_le_length_filter _ _ _ ?_)
    intro a _ ha
    rcases Bool.and_eq_true_iff.mp ha with ⟨hcat, hstyle⟩
    rw [Bool.and_eq_true_iff]
    refine ⟨hstyle, ?_⟩
    rcases Bool.or_eq_true_iff.mp hcat with hc | hc
    · simp [beq_iff_eq.mp hc, hu]
    · simp [beq_iff_eq.mp hc, hh]
  unfold stylePool
  rw [if_pos rfl]
  have hne : ((categoryPool cats).filter isStakeholderStyleB).isEmpty = false := by
    rw [List.isEmpty_eq_false]
    intro h0
    rw [h0] at key
    simp at key
  simp only [hne, Bool.false_eq_true, if_false]
  exact key

theorem stylePool_ae_len (cats : List String)
    (hu : "usability" ∈ cats) (hh : "hierarchy" ∈ cats)
    (ha : "accessibility" ∈ cats) (hm : "mobile" ∈ cats) :
    6 ≤ (stylePool cats "Accessibility Expert").length := by
  have key : 6 ≤ ((categoryPool cats).filter isAccessibilityExpertStyleB).length := by
    unfold categoryPool
    rw [List.filter_filter]
    have h9 : (9 : Nat) ≤ List.countP (fun p =>
        (p.category == "usability" || p.category == "hierarchy" ||
          p.category == "accessibility" || p.category == "mobile") &&
          isAccessibilityExpertStyleB p) feedbackPhrases := by
      rw [count_ae_uham]
    refine le_trans (by omega) (le_trans h9 (countP_le_length_filter _ _ _ ?_))
    intro a _ hcond
    rcases Bool.and_eq_true_iff.mp hcond with ⟨hcat, hstyle⟩
    rw [Bool.and_eq_true_iff]
    refine ⟨hstyle, ?_⟩
    rcases Bool.or_eq_true_iff.mp hcat with hc | hc
    · rcases Bool.or_eq_true_iff.mp hc with hc2 | hc2
      · rcases Bool.or_eq_true_iff.mp hc2 with hc3 | hc3
        · simp [beq_iff_eq.mp hc3, hu]
        · simp [beq_iff_eq.mp hc3, hh]
      · simp [beq_iff_eq.mp hc2, ha]
    · simp [beq_iff_eq.mp hc, hm]
  unfold stylePool
  rw [if_neg (by decide), if_pos rfl]
  have hne : ((categoryPool cats).filter isAccessibilityExpertStyleB).isEmpty = false := by
    rw [List.isEmpty_eq_false]
    intro h0
    rw [h0] at key
    simp at key
  simp only [hne, Bool.false_eq_true, if_false]
  exact key

theorem stylePool_generic_len (cats : List String) (persona : String)
    (hS : persona ≠ "Stakeholder") (hA : persona ≠ "Accessibility Expert")
    (hu : "usability" ∈ cats) (hh : "hierarchy" ∈ cats) :
    6 ≤ (stylePool cats persona).length := by
  have key : 6 ≤ ((categoryPool cats).filter isGenericStyleB).length := by
    unfold categoryPool
    rw [List.filter_filter]
    refine le_trans (le_of_eq count_generic_uh.symm)
      (countP_le_length_filter _ _ _ ?_)
    intro a _ ha
    rcases Bool.and_eq_true_iff.mp ha with ⟨hcat, hstyle⟩
    rw [Bool.and_eq_true_iff]
    refine ⟨hstyle, ?_⟩
    rcases Bool.or_eq_true_iff.mp hcat with hc | hc
    · simp [beq_iff_eq.mp hc, hu]
    · simp [beq_iff_eq.mp hc, hh]
  unfold stylePool
  rw [if_neg hS, if_neg hA]
  have hne : ((categoryPool cats).filter isGenericStyleB).isEmpty = false := by
    rw [List.isEmpty_eq_false]
    intro h0
    rw [h0] at key
    simp at key
  simp only [hne, Bool.false_eq_true, if_false]
  exact key

/-! Selector lemmas. -/

theorem Item.core_of (p : Phrase) (id : String) : (Item.of p id).core = p := rfl

theorem Item.text_of (p : Phrase) (id : String) : (Item.of p id).text = p.text := rfl

theorem Item.id_of (p : Phrase) (id : String) : (Item.of p id).id = id := rfl

theorem sortKeyed_map_perm (key : α → Int) (l : List α) :
    ((sortKeyed key l).map (·.2)).Perm l := by
  have h1 : (sortKeyed key l).Perm l.enum := List.perm_insertionSort _ _
  have h2 := h1.map (Prod.snd)
  rw [List.enum_map_snd] at h2
  exact h2

theorem sortKeyed_map_length (key : α → Int) (l : List α) :
    ((sortKeyed key l).map (·.2)).length = l.length :=
  (sortKeyed_map_perm key l).length_eq

theorem pairwise_enum_snd (R : α → α → Prop) (l : List α) (h : l.Pairwise R) :
    l.enum.Pairwise (fun a b => R a.2 b.2) := by
  refine (List.pairwise_map).mp ?_
  rwa [List.enum_map_snd]

theorem isEmpty_false_of_six {l : List Phrase} (h6 : 6 ≤ l.length) :
    l.isEmpty = false := by
  rw [List.isEmpty_eq_false]
  intro h0
  rw [h0] at h6
  simp at h6

theorem select_length (cats : List String) (persona : String) (seed : Int)
    (hs : 0 ≤ seed) (h6 : 6 ≤ (stylePool cats persona).length) :
    6 ≤ (selectRandomPhrases cats none persona seed).length ∧
      (selectRandomPhrases cats none persona seed).length ≤ 8 := by
  have hne := isEmpty_false_of_six h6
  unfold selectRandomPhrases
  simp only [hne, Bool.false_eq_true, if_false]
  rw [List.length_map, List.enum_length, List.length_take,
    sortKeyed_map_length, Option.getD_none]
  rw [Int.tmod_eq_emod hs (by norm_num)]
  have h1 : 0 ≤ seed % 3 := Int.emod_nonneg seed (by norm_num)
  have h2 : seed % 3 < 3 := Int.emod_lt_of_pos seed (by norm_num)
  omega

theorem select_core_mem (cats : List String) (count : Option Int) (persona : String)
    (seed : Int) (hne : (stylePool cats persona).isEmpty = false) :
    ∀ it ∈ selectRandomPhrases cats count persona seed,
      it.core ∈ stylePool cats persona := by
  intro it hit
  unfold selectRandomPhrases at hit
  simp only [hne, Bool.false_eq_true, if_false] at hit
  rcases List.mem_map.mp hit with ⟨⟨i, p⟩, hip, rfl⟩
  rw [Item.core_of]
  obtain ⟨hilen, heq⟩ := List.mem_enum hip
  have hmem : p ∈ (((sortKeyed (phraseKey seed) (stylePool cats persona)).map (·.2)).take
      (min (max 6 ((count.getD (6 + seed.tmod 3)))) (min 8
        (((sortKeyed (phraseKey seed) (stylePool cats persona)).map (·.2)).length : Int))).toNat) := by
    rw [heq]
    exact List.getElem_mem hilen
  have hp2 := (List.take_sublist _ _).mem hmem
  exact ((sortKeyed_map_perm (phraseKey seed) (stylePool cats persona)).mem_iff).mp hp2

theorem select_texts_pairwise (cats : List String) (count : Option Int)
    (persona : String) (seed : Int)
    (hne : (stylePool cats persona).isEmpty = false) :
    (selectRandomPhrases cats count persona seed).Pairwise
      (fun a b => normText a.text ≠ normText b.text) := by
  unfold selectRandomPhrases
  simp only [hne, Bool.false_eq_true, if_false]
  have hpool : (stylePool cats persona).Pairwise
      (fun a b => normText a.text ≠ normText b.text) :=
    List.Pairwise.sublist (stylePool_sublist cats persona) table_texts_distinct
  have hordered : (((sortKeyed (phraseKey seed) (stylePool cats persona)).map (·.2))).Pairwise
      (fun a b => normText a.text ≠ normText b.text) := by
    refine ((sortKeyed_map_perm (phraseKey seed) (stylePool cats persona)).pairwise_iff
      (fun h => Ne.symm h)).mpr hpool
  refine (List.pairwise_map).mpr ?_
  simp only [Item.text_of]
  refine pairwise_enum_snd
    (fun x y : Phrase => normText x.text ≠ normText y.text) _ ?_
  exact List.Pairwise.sublist (List.take_sublist _ _) hordered

theorem select_id_shape (cats : List String) (count : Option Int) (persona : String)
    (seed : Int) (hne : (stylePool cats persona).isEmpty = false) :
    ∀ it ∈ selectRandomPhrases cats count persona seed,
      ∃ rest, codes it.id = codes "feedback-" ++ (codes (intDec seed) ++ rest) := by
  intro it hit
  unfold selectRandomPhrases at hit
  simp only [hne, Bool.false_eq_true, if_false] at hit
  rcases List.mem_map.mp hit with ⟨⟨i, p⟩, _, rfl⟩
  refine ⟨codes ("-" ++ natDec i), ?_⟩
  show codes ("feedback-" ++ intDec seed ++ "-" ++ natDec i) = _
  simp [codes_append, List.append_assoc]

/-! Image heuristic lemmas. -/

theorem mobilePool_len_pos (persona : String) : 0 < (mobilePool persona).length := by
  by_cases h1 : persona = "Stakeholder"
  · subst h1; decide
  · by_cases h2 : persona = "Accessibility Expert"
    · subst h2; decide
    · unfold mobilePool
      rw [if_neg h1, if_neg h2]
      decide

theorem image_feedback_mem (img : Option ImageData) (persona : String) (seed : Int)
    (hs : 0 ≤ seed) :
    ∀ it ∈ generateImageBasedFeedback img persona seed,
      it.core ∈ mobilePool persona ∨ it.core = responsivePhrase := by
  intro it hit
  cases img with
  | none => simp [generateImageBasedFeedback] at hit
  | some i =>
    simp only [generateImageBasedFeedback] at hit
    split at hit
    case isTrue hwh =>
      rcases List.mem_append.mp hit with h | h
      · split at h
        case isTrue =>
          split at h
          case isTrue hlen =>
            rcases List.mem_singleton.mp h with rfl
            rw [Item.core_of]
            left
            have hidx : (Int.tmod seed ((mobilePool persona).length : Int)).natAbs <
                (mobilePool persona).length := by
              rw [Int.tmod_eq_emod hs (by positivity)]
              have h1 : 0 ≤ seed % ((mobilePool persona).length : Int) :=
                Int.emod_nonneg seed (by exact_mod_cast Nat.pos_iff_ne_zero.mp hlen)
              have h2 : seed % ((mobilePool persona).length : Int) <
                  ((mobilePool persona).length : Int) :=
                Int.emod_lt_of_pos seed (by exact_mod_cast hlen)
              omega
            rw [List.getD_eq_getElem _ _ hidx]
            exact List.getElem_mem hidx
          case isFalse => simp at h
        case isFalse => simp at h
      · split at h
        case isTrue =>
          rcases List.mem_singleton.mp h with rfl
          rw [Item.core_of]
          right
          rfl
        case isFalse => simp at h
    case isFalse => simp at hit

theorem image_length_le (img : Option ImageData) (persona : String) (seed : Int) :
    (generateImageBasedFeedback img persona seed).length ≤ 2 := by
  cases img with
  | none => simp [generateImageBasedFeedback]
  | some i =>
    simp only [generateImageBasedFeedback]
    split
    · rw [List.length_append]
      refine le_trans (Nat.add_le_add ?_ ?_) (by norm_num : (1 : Nat) + 1 ≤ 2)
      · split
        · split <;> simp
        · simp
      · split <;> simp
    · simp

theorem dedupAux_sublist (l : List Item) :
    ∀ seen, (dedupAux seen l).Sublist l := by
  induction l with
  | nil => intro seen; simp [dedupAux]
  | cons f rest ih =>
    intro seen
    unfold dedupAux
    split
    · exact (ih seen).cons f
    · exact (ih _).cons₂ f

theorem dedupAux_spec (l : List Item) :
    ∀ seen, (dedupAux seen l).Pairwise
        (fun a b => normText a.text ≠ normText b.text) ∧
      ∀ x ∈ dedupAux seen l, normText x.text ∉ seen := by
  induction l with
  | nil => intro seen; simp [dedupAux]
  | cons f rest ih =>
    intro seen
    unfold dedupAux
    split
    case isTrue => exact ih seen
    case isFalse hns =>
      obtain ⟨ihp, ihs⟩ := ih (normText f.text :: seen)
      refine ⟨List.Pairwise.cons ?_ ihp, ?_⟩
      · intro x hx
        have hnot := ihs x hx
        intro hEq
        rw [hEq] at hnot
        exact hnot (List.mem_cons_self _ _)
      · intro x hx
        rcases List.mem_cons.mp hx with rfl | hx2
        · simpa using hns
        · have hnot := ihs x hx2
          intro hmem
          exact hnot (List.mem_cons_of_mem _ hmem)

theorem dedupAux_append (xs ys : List Item) :
    ∀ seen, xs.Pairwise (fun a b => normText a.text ≠ normText b.text) →
      (∀ x ∈ xs, normText x.text ∉ seen) →
      ∃ seen2, dedupAux seen (xs ++ ys) = xs ++ dedupAux seen2 ys := by
  induction xs with
  | nil => intro seen _ _; exact ⟨seen, rfl⟩
  | cons x xs ih =>
    intro seen hpw hns
    have hcond : ¬(seen.contains (normText x.text) = true) := by
      simp only [List.contains_iff_exists_mem_beq, beq_iff_eq]
      rintro ⟨y, hy, rfl⟩
      exact hns x (List.mem_cons_self x xs) hy
    have hstep : dedupAux seen ((x :: xs) ++ ys)
        = x :: dedupAux (normText x.text :: seen) (xs ++ ys) := by
      rw [List.cons_append]
      conv_lhs => rw [dedupAux]
      rw [if_neg hcond]
    have htail : ∀ y ∈ xs, normText y.text ∉ normText x.text :: seen := by
      intro y hy hmem
      rcases List.mem_cons.mp hmem with hEq | hmem2
      · exact (List.pairwise_cons.mp hpw).1 y hy hEq.symm
      · exact hns y (List.mem_cons_of_mem x hy) hmem2
    obtain ⟨seen2, hseen2⟩ := ih (normText x.text :: seen) hpw.of_cons htail
    exact ⟨seen2, hstep.trans (by rw [hseen2, List.cons_append])⟩

/-! Category and stage lemmas. -/

theorem setDedup_mem (l : List String) :
    ∀ seen x, x ∈ setDedup seen l ↔ (x ∈ l ∧ x ∉ seen) := by
  induction l with
  | nil => intro seen x; simp [setDedup]
  | cons a as ih =>
    intro seen x
    unfold setDedup
    split
    case isTrue h =>
      rw [ih seen x]
      constructor
      · rintro ⟨hx, hns⟩
        exact ⟨List.mem_cons_of_mem a hx, hns⟩
      · rintro ⟨hx, hns⟩
        rcases List.mem_cons.mp hx with rfl | hx2
        · exact absurd (by simpa using h) hns
        · exact ⟨hx2, hns⟩
    case isFalse h =>
      rw [List.mem_cons, ih (a :: seen) x]
      constructor
      · rintro (rfl | ⟨hx, hns⟩)
        · exact ⟨List.mem_cons_self _ _, by simpa using h⟩
        · exact ⟨List.mem_cons_of_mem _ hx,
            fun hm => hns (List.mem_cons_of_mem _ hm)⟩
      · rintro ⟨hx, hns⟩
        by_cases hxa : x = a
        · left; exact hxa
        · rcases List.mem_cons.mp hx with rfl | hx2
          · exact absurd rfl hxa
          · right
            refine ⟨hx2, fun hm => ?_⟩
            rcases List.mem_cons.mp hm with h1 | h1
            · exact hxa h1
            · exact hns h1

theorem selectRelevantCategories_mem (kws : List String) :
    "usability" ∈ selectRelevantCategories kws ∧
      "hierarchy" ∈ selectRelevantCategories kws := by
  unfold selectRelevantCategories
  split
  · rw [setDedup_mem, setDedup_mem]
    refine ⟨⟨List.mem_append_right _ ?_, List.not_mem_nil _⟩,
      ⟨List.mem_append_right _ ?_, List.not_mem_nil _⟩⟩ <;> simp
  · simp

theorem pipelineCats_uh (d : Option String) (persona : String) :
    "usability" ∈ pipelineCats d persona ∧ "hierarchy" ∈ pipelineCats d persona := by
  unfold pipelineCats
  have h := selectRelevantCategories_mem (extractKeywords d)
  split
  · exact ⟨List.mem_append_left _ h.1, List.mem_append_left _ h.2⟩
  · exact h

theorem pipelineCats_ae_extra (d : Option String) :
    "accessibility" ∈ pipelineCats d "Accessibility Expert" ∧
      "mobile" ∈ pipelineCats d "Accessibility Expert" := by
  unfold pipelineCats
  rw [if_pos rfl]
  constructor
  · by_cases hc :
      (selectRelevantCategories (extractKeywords d)).contains "accessibility" = true
    · exact List.mem_append_left _ (by simpa using hc)
    · refine List.mem_append_right _
        (List.mem_filter.mpr ⟨by simp, by simp; simpa using hc⟩)
  · by_cases hc :
      (selectRelevantCategories (extractKeywords d)).contains "mobile" = true
    · exact List.mem_append_left _ (by simpa using hc)
    · refine List.mem_append_right _
        (List.mem_filter.mpr ⟨by simp, by simp; simpa using hc⟩)

theorem primary_pool_len (d : Option String) (persona : String) :
    6 ≤ (stylePool (pipelineCats d persona) persona).length := by
  obtain ⟨hu, hh⟩ := pipelineCats_uh d persona
  by_cases hS : persona = "Stakeholder"
  · subst hS; exact stylePool_stakeholder_len _ hu hh
  · by_cases hA : persona = "Accessibility Expert"
    · subst hA
      obtain ⟨ha, hm⟩ := pipelineCats_ae_extra d
      exact stylePool_ae_len _ hu hh ha hm
    · exact stylePool_generic_len _ persona hS hA hu hh

theorem getInputSeed_nonneg (d : Option String) (img : Option ImageData)
    (persona : String) : 0 ≤ getInputSeed d img persona :=
  simpleHashC_nonneg _

theorem primary_length (d : Option String) (img : Option ImageData) (persona : String) :
    6 ≤ (primaryStage d img persona).length ∧ (primaryStage d img persona).length ≤ 8 :=
  select_length _ _ _ (getInputSeed_nonneg d img persona) (primary_pool_len d persona)

theorem primary_pairwise (d : Option String) (img : Option ImageData) (persona : String) :
    (primaryStage d img persona).Pairwise
      (fun a b => normText a.text ≠ normText b.text) :=
  select_texts_pairwise _ none _ _ (isEmpty_false_of_six (primary_pool_len d persona))

theorem mergedStage_eq (d : Option String) (img : Option ImageData) (persona : String) :
    mergedStage d img persona =
      primaryStage d img persona ++
        generateImageBasedFeedback img persona (getInputSeed d img persona) := by
  cases img with
  | none => simp [mergedStage, generateImageBasedFeedback]
  | some i => rfl

theorem dedup_merged (d : Option String) (img : Option ImageData) (persona : String) :
    ∃ seen2, dedupAux [] (mergedStage d img persona)
      = primaryStage d img persona ++
          dedupAux seen2 (generateImageBasedFeedback img persona
            (getInputSeed d img persona)) := by
  rw [mergedStage_eq]
  exact dedupAux_append _ _ [] (primary_pairwise d img persona) (by simp)

theorem dedupMerged_length (d : Option String) (img : Option ImageData)
    (persona : String) :
    6 ≤ (dedupAux [] (mergedStage d img persona)).length ∧
      (dedupAux [] (mergedStage d img persona)).length ≤ 10 := by
  constructor
  · obtain ⟨seen2, hs2⟩ := dedup_merged d img persona
    rw [hs2, List.length_append]
    have := (primary_length d img persona).1
    omega
  · rw [mergedStage_eq]
    have h1 := (dedupAux_sublist (primaryStage d img persona ++
      generateImageBasedFeedback img persona (getInputSeed d img persona)) []).length_le
    rw [List.length_append] at h1
    have h2 := (primary_length d img persona).2
    have h3 := image_length_le img persona (getInputSeed d img persona)
    omega

theorem filterByPersona_perm (fb : List Item) (persona : String) :
    (filterByPersona fb persona).Perm fb := by
  unfold filterByPersona
  split
  · exact List.Perm.refl _
  · unfold filterByPersonaKeyed
    have h1 := (List.perm_insertionSort
      (fun a b => personaLe (preferredOf persona) a b = true) fb.enum).map Prod.snd
    rwa [List.enum_map_snd] at h1

theorem truncated_bounds (d : Option String) (img : Option ImageData)
    (persona : String) :
    6 ≤ (truncatedStage d img persona).length ∧
      (truncatedStage d img persona).length ≤ 8 := by
  simp only [truncatedStage]
  have hlen := (filterByPersona_perm
    (dedupAux [] (mergedStage d img persona)) persona).length_eq
  have hd := dedupMerged_length d img persona
  split
  case isTrue h => rw [List.length_take]; omega
  case isFalse h => omega

theorem truncated_pairwise (d : Option String) (img : Option ImageData)
    (persona : String) :
    (truncatedStage d img persona).Pairwise
      (fun a b => normText a.text ≠ normText b.text) := by
  simp only [truncatedStage]
  have hperm := filterByPersona_perm (dedupAux [] (mergedStage d img persona)) persona
  have hpw : (filterByPersona (dedupAux [] (mergedStage d img persona)) persona).Pairwise
      (fun a b => normText a.text ≠ normText b.text) :=
    (hperm.pairwise_iff (fun h => Ne.symm h)).mpr (dedupAux_spec _ []).1
  split
  · exact List.Pairwise.sublist (List.take_sublist _ _) hpw
  · exact hpw

theorem generateFeedback_eq_truncated (d : Option String) (img : Option ImageData)
    (persona : String) :
    generateFeedback d img persona = truncatedStage d img persona := by
  simp only [generateFeedback]
  rw [if_neg]
  intro h
  have := (truncated_bounds d img persona).1
  omega

theorem generateFeedback_bounds (d : Option String) (img : Option ImageData)
    (persona : String) :
    6 ≤ (generateFeedback d img persona).length ∧
      (generateFeedback d img persona).length ≤ 8 := by
  rw [generateFeedback_eq_truncated]
  exact truncated_bounds d img persona


/-! Trim lemmas for seed normalization. -/

theorem dropWhile_ws_append (l1 l2 : List Nat) (h : ∀ c ∈ l1, isWsCode c = true) :
    (l1 ++ l2).dropWhile isWsCode = l2.dropWhile isWsCode := by
  rw [List.dropWhile_append]
  have h1 : l1.dropWhile isWsCode = [] := List.dropWhile_eq_nil_iff.mpr h
  rw [h1]
  simp

theorem trimWs_append_ws (d post : List Nat) (h : ∀ c ∈ post, isWsCode c = true) :
    trimWs (d ++ post) = trimWs d := by
  unfold trimWs
  rw [List.dropWhile_append]
  by_cases hd : d.dropWhile isWsCode = []
  · rw [hd]
    simp only [List.isEmpty_nil, if_true]
    have hp : post.dropWhile isWsCode = [] ∨ True := Or.inr trivial
    have hall : ∀ c ∈ post.dropWhile isWsCode, isWsCode c = true :=
      fun c hc => h c (List.Sublist.mem hc (List.dropWhile_sublist _))
    have : (post.dropWhile isWsCode).reverse.dropWhile isWsCode = [] :=
      List.dropWhile_eq_nil_iff.mpr fun c hc => hall c (List.mem_reverse.mp hc)
    rw [this]
    rfl
  · rw [if_neg (by simpa [List.isEmpty_iff] using hd)]
    rw [List.reverse_append]
    rw [dropWhile_ws_append _ _ (fun c hc => h c (List.mem_reverse.mp hc))]

theorem trimWs_ws_append (pre d : List Nat) (h : ∀ c ∈ pre, isWsCode c = true) :
    trimWs (pre ++ d) = trimWs d := by
  unfold trimWs
  rw [dropWhile_ws_append pre d h]

/-! Claim C1: determinism of the full pipeline. -/

/-- C1.  Determinism: the pipeline is a pure function of
`(description, imageMetadata, persona)`, so two invocations with
identical arguments return identical ordered lists, with identical id
strings. -/
theorem generateFeedback_deterministic (d : Option String) (img : Option ImageData)
    (persona : String) :
    generateFeedback d img persona = generateFeedback d img persona ∧
      (generateFeedback d img persona).map (·.id) =
        (generateFeedback d img persona).map (·.id) :=
  ⟨rfl, rfl⟩

/-! Claim C2: bounded size and text uniqueness. -/

/-- C2.  For every description, image metadata and persona the returned
list has between 6 and 8 items (so at least `min 6 achievable` and at
most 8), and no two returned items share a normalized
(lower-cased, trimmed) text. -/
theorem generateFeedback_bounded_unique (d : Option String) (img : Option ImageData)
    (persona : String) :
    6 ≤ (generateFeedback d img persona).length ∧
      (generateFeedback d img persona).length ≤ 8 ∧
      (generateFeedback d img persona).Pairwise
        (fun a b => normText a.text ≠ normText b.text) := by
  refine ⟨(generateFeedback_bounds d img persona).1,
    (generateFeedback_bounds d img persona).2, ?_⟩
  rw [generateFeedback_eq_truncated]
  exact truncated_pairwise d img persona

/-! Claim C8: totality of the pipeline. -/

/-- C8.  The pipeline is total in the embedding; a `null` description is
handled exactly like the empty string, and
`generateFeedback('', null, 'General Designer')` returns between 6 and 8
items.  (Bounds for every other input are `generateFeedback_bounded_unique`.) -/
theorem generateFeedback_total :
    generateFeedback none none "General Designer" =
        generateFeedback (some "") none "General Designer" ∧
      6 ≤ (generateFeedback (some "") none "General Designer").length ∧
      (generateFeedback (some "") none "General Designer").length ≤ 8 :=
  ⟨by decide, (generateFeedback_bounds (some "") none "General Designer").1,
    (generateFeedback_bounds (some "") none "General Designer").2⟩


/-! Claim C7: seed normalization. -/

/-- C7.  The computed seed is non-negative, and padding the description
with leading or trailing whitespace leaves it unchanged. -/
theorem seed_nonneg_and_trim_invariant :
    (∀ (d : Option String) (img : Option ImageData) (persona : String),
        0 ≤ getInputSeed d img persona) ∧
      ∀ (pre d post : String) (img : Option ImageData) (persona : String),
        (∀ c ∈ codes pre, isWsCode c = true) →
        (∀ c ∈ codes post, isWsCode c = true) →
        getInputSeed (some (pre ++ d ++ post)) img persona =
          getInputSeed (some d) img persona := by
  refine ⟨fun d img p => getInputSeed_nonneg d img p, ?_⟩
  intro pre d post img persona hpre hpost
  have h1 : trimWs (codes (pre ++ d ++ post)) = trimWs (codes d) := by
    rw [codes_append, codes_append, trimWs_append_ws _ _ hpost,
      trimWs_ws_append _ _ hpre]
  unfold getInputSeed
  simp only [Option.getD_some]
  rw [h1]

theorem seed_nonneg_and_trim_invariant_witness :
    0 ≤ getInputSeed (some "hello") none "General Designer" ∧
      getInputSeed (some (" " ++ "hello" ++ "  ")) none "General Designer" =
        getInputSeed (some "hello") none "General Designer" :=
  ⟨seed_nonneg_and_trim_invariant.1 (some "hello") none "General Designer",
    seed_nonneg_and_trim_invariant.2 " " "hello" "  " none "General Designer"
      (by decide) (by decide)⟩

/-! Claim C10: zero-dimension asymmetry. -/

theorem image_zero_dim (persona : String) (seed : Int) :
    generateImageBasedFeedback (some ⟨some 0, some 667⟩) persona seed = [] := by
  simp [generateImageBasedFeedback]

theorem truncated_mem_merged (d : Option String) (img : Option ImageData)
    (persona : String) :
    ∀ it ∈ truncatedStage d img persona, it ∈ mergedStage d img persona := by
  intro it hit
  simp only [truncatedStage] at hit
  have hit2 : it ∈ filterByPersona (dedupAux [] (mergedStage d img persona)) persona := by
    split at hit
    · exact List.Sublist.mem hit (List.take_sublist _ _)
    · exact hit
  have hit3 := (filterByPersona_perm _ persona).mem_iff.mp hit2
  exact List.Sublist.mem hit3 (dedupAux_sublist _ [])

/-- C10.  Image metadata with a zero dimension (both fields present)
contributes no image-derived item, yet the seed is computed from the
dimension key `0-667` rather than the empty key, so the result can differ
from the metadata-free call. -/
theorem zero_dimension_asymmetry :
    (∀ (d : Option String) (persona : String),
        ∀ it ∈ generateFeedback d (some ⟨some 0, some 667⟩) persona,
          (codes "feedback-image-").isPrefixOf (codes it.id) = false) ∧
      (∀ (d : Option String) (persona : String),
        getInputSeed d (some ⟨some 0, some 667⟩) persona =
          simpleHashC (trimWs (codes (d.getD "")) ++
            codes ("|" ++ "0-667" ++ "|" ++ persona))) ∧
      generateFeedback (some "") (some ⟨some 0, some 667⟩) "General Designer" ≠
        generateFeedback (some "") none "General Designer" := by
  refine ⟨?_, ?_, by decide⟩
  · intro d persona it hit
    rw [generateFeedback_eq_truncated] at hit
    have h2 := truncated_mem_merged d _ persona it hit
    rw [mergedStage_eq, image_zero_dim, List.append_nil] at h2
    obtain ⟨rest, hrest⟩ := select_id_shape _ none _ _
      (isEmpty_false_of_six (primary_pool_len d persona)) it h2
    rw [hrest]
    exact not_prefix_of_id_num _ (by decide) (by decide) _
      (getInputSeed_nonneg d _ persona) rest
  · intro d persona
    unfold getInputSeed
    rw [show imageKey (some ⟨some 0, some 667⟩) = "0-667" from by decide]

theorem zero_dimension_asymmetry_witness :
    (codes "feedback-image-").isPrefixOf
      (codes ((generateFeedback (some "") (some ⟨some 0, some 667⟩)
        "General Designer").getD 0 (Item.of defaultPhrase "")).id) = false :=
  zero_dimension_asymmetry.1 (some "") "General Designer" _ (by decide)

/-! Claim C4: image mobile trigger. -/

theorem image_375 (persona : String) (seed : Int) :
    generateImageBasedFeedback (some ⟨some 375, some 667⟩) persona seed =
      [Item.of ((mobilePool persona).getD
          (Int.tmod seed ((mobilePool persona).length : Int)).natAbs defaultPhrase)
        ("feedback-image-mobile-" ++ intDec seed)] := by
  simp only [generateImageBasedFeedback]
  rw [if_pos (by simp), if_pos (by simp), if_pos (mobilePool_len_pos persona),
    if_neg (by simp), List.append_nil]

theorem mobilePref_self (seed : Int) :
    (codes "feedback-image-mobile-").isPrefixOf
      (codes ("feedback-image-mobile-" ++ intDec seed)) = true := by
  rw [List.isPrefixOf_iff_prefix, codes_append]
  exact ⟨codes (intDec seed), rfl⟩

theorem primary_no_num_id (d : Option String) (img : Option ImageData)
    (persona : String) (p : List Nat) (h9 : 9 < p.length) (hp : p.getD 9 0 = 105) :
    (primaryStage d img persona).countP
      (fun it => p.isPrefixOf (codes it.id)) = 0 := by
  rw [List.countP_eq_zero]
  intro it hit
  obtain ⟨rest, hrest⟩ := select_id_shape _ none _ _
    (isEmpty_false_of_six (primary_pool_len d persona)) it hit
  simp only [hrest]
  rw [not_prefix_of_id_num p h9 hp _ (getInputSeed_nonneg d img persona) rest]
  simp

/-- C4 counterexample: with `imageMetadata = {width:375, height:667}` the
description `mobile layout` and the General Designer persona yield a list
with NO item whose id starts with `feedback-image-mobile-` (the image item
is removed as a duplicate), refuting the claimed "exactly one". -/
theorem image_mobile_counterexample :
    (generateFeedback (some "mobile layout") (some ⟨some 375, some 667⟩)
      "General Designer").countP
        (fun it => (codes "feedback-image-mobile-").isPrefixOf (codes it.id)) = 0 := by
  decide

/-- C4 (amended).  With `imageMetadata = {width:375, height:667}` the
merged candidate list (before deduplication) contains exactly one item
with id prefix `feedback-image-mobile-`, and the final list contains at
most one such item — deduplication or the cap at 8 may remove it. -/
theorem image_mobile_amended (d : Option String) (persona : String) :
    (mergedStage d (some ⟨some 375, some 667⟩) persona).countP
        (fun it => (codes "feedback-image-mobile-").isPrefixOf (codes it.id)) = 1 ∧
      (generateFeedback d (some ⟨some 375, some 667⟩) persona).countP
        (fun it => (codes "feedback-image-mobile-").isPrefixOf (codes it.id)) ≤ 1 := by
  have hmerged : (mergedStage d (some ⟨some 375, some 667⟩) persona).countP
      (fun it => (codes "feedback-image-mobile-").isPrefixOf (codes it.id)) = 1 := by
    rw [mergedStage_eq, List.countP_append]
    rw [primary_no_num_id d _ persona _ (by decide) (by decide)]
    rw [image_375]
    rw [List.countP_singleton]
    rw [Item.id_of, mobilePref_self]
    rfl
  refine ⟨hmerged, ?_⟩
  rw [generateFeedback_eq_truncated]
  have c1 : (truncatedStage d (some ⟨some 375, some 667⟩) persona).countP
      (fun it => (codes "feedback-image-mobile-").isPrefixOf (codes it.id)) ≤
      (filterByPersona (dedupAux []
        (mergedStage d (some ⟨some 375, some 667⟩) persona)) persona).countP
        (fun it => (codes "feedback-image-mobile-").isPrefixOf (codes it.id)) := by
    simp only [truncatedStage]
    split
    · exact List.Sublist.countP_le _ (List.take_sublist _ _)
    · exact le_refl _
  have c2 := (filterByPersona_perm (dedupAux []
    (mergedStage d (some ⟨some 375, some 667⟩) persona)) persona).countP_eq
    (fun it => (codes "feedback-image-mobile-").isPrefixOf (codes it.id))
  have c3 := List.Sublist.countP_le
    (fun it => (codes "feedback-image-mobile-").isPrefixOf (codes it.id))
    (dedupAux_sublist (mergedStage d (some ⟨some 375, some 667⟩) persona) [])
  omega


/-! Claim C3: persona style isolation. -/

theorem generic_styles (p : Phrase) (h : isGenericStyleB p = true) :
    isStakeholderStyleB p = false ∧ isAccessibilityExpertStyleB p = false := by
  unfold isGenericStyleB at h
  rcases Bool.and_eq_true_iff.mp h with ⟨h1, h2⟩
  exact ⟨by simpa using h1, by simpa using h2⟩

theorem stylePool_stakeholder_mem (cats : List String) :
    ∀ p ∈ stylePool cats "Stakeholder",
      p ∈ feedbackPhrases ∧
        (isStakeholderStyleB p = true ∨ isGenericStyleB p = true) := by
  intro p hp
  refine ⟨List.Sublist.mem hp (stylePool_sublist cats "Stakeholder"), ?_⟩
  unfold stylePool at hp
  rw [if_pos rfl] at hp
  split at hp
  · right
    exact (Bool.and_eq_true_iff.mp (List.mem_filter.mp hp).2).2
  · left
    exact (List.mem_filter.mp hp).2

theorem stylePool_ae_mem (cats : List String) :
    ∀ p ∈ stylePool cats "Accessibility Expert",
      p ∈ feedbackPhrases ∧
        (isAccessibilityExpertStyleB p = true ∨ isGenericStyleB p = true) := by
  intro p hp
  refine ⟨List.Sublist.mem hp (stylePool_sublist cats "Accessibility Expert"), ?_⟩
  unfold stylePool at hp
  rw [if_neg (by decide), if_pos rfl] at hp
  split at hp
  · right
    exact (Bool.and_eq_true_iff.mp (List.mem_filter.mp hp).2).2
  · left
    exact (List.mem_filter.mp hp).2

theorem mobilePool_stakeholder_mem :
    ∀ p ∈ mobilePool "Stakeholder",
      p ∈ feedbackPhrases ∧ isGenericStyleB p = true := by decide

theorem mobilePool_ae_mem :
    ∀ p ∈ mobilePool "Accessibility Expert",
      p ∈ feedbackPhrases ∧ isAccessibilityExpertStyleB p = true := by decide

theorem generateFeedback_core_cases (d : Option String) (img : Option ImageData)
    (persona : String) :
    ∀ it ∈ generateFeedback d img persona,
      it.core ∈ stylePool (pipelineCats d persona) persona ∨
        it.core ∈ mobilePool persona ∨ it.core = responsivePhrase := by
  intro it hit
  rw [generateFeedback_eq_truncated] at hit
  have h2 := truncated_mem_merged d img persona it hit
  rw [mergedStage_eq] at h2
  rcases List.mem_append.mp h2 with h | h
  · left
    exact select_core_mem _ none _ _
      (isEmpty_false_of_six (primary_pool_len d persona)) it h
  · right
    exact image_feedback_mem img persona _ (getInputSeed_nonneg d img persona) it h

/-- C3.  For the Accessibility Expert persona no returned item's
text-plus-suggestion matches the Stakeholder (metrics) pattern, and for
the Stakeholder persona no returned item matches the
Accessibility-Expert (WCAG) pattern. -/
theorem persona_style_isolation (d : Option String) (img : Option ImageData) :
    (∀ it ∈ generateFeedback d img "Accessibility Expert",
        isStakeholderStyleB it.core = false) ∧
      ∀ it ∈ generateFeedback d img "Stakeholder",
        isAccessibilityExpertStyleB it.core = false := by
  constructor
  · intro it hit
    rcases generateFeedback_core_cases d img "Accessibility Expert" it hit with h | h | h
    · rcases stylePool_ae_mem _ it.core h with ⟨hmem, hae | hgen⟩
      · cases hstak : isStakeholderStyleB it.core
        · rfl
        · exact absurd ⟨hae, hstak⟩ (table_no_style_overlap it.core hmem)
      · exact (generic_styles _ hgen).1
    · rcases mobilePool_ae_mem it.core h with ⟨hmem, hae⟩
      cases hstak : isStakeholderStyleB it.core
      · rfl
      · exact absurd ⟨hae, hstak⟩ (table_no_style_overlap it.core hmem)
    · rw [h]
      exact special_phrases_styles.1
  · intro it hit
    rcases generateFeedback_core_cases d img "Stakeholder" it hit with h | h | h
    · rcases stylePool_stakeholder_mem _ it.core h with ⟨hmem, hst | hgen⟩
      · cases hae : isAccessibilityExpertStyleB it.core
        · rfl
        · exact absurd ⟨hae, hst⟩ (table_no_style_overlap it.core hmem)
      · exact (generic_styles _ hgen).2
    · exact (generic_styles _ (mobilePool_stakeholder_mem it.core h).2).2
    · rw [h]
      exact special_phrases_styles.2.1

theorem persona_style_isolation_witness :
    isStakeholderStyleB ((generateFeedback (some "") none
      "Accessibility Expert").getD 0 (Item.of defaultPhrase "")).core = false :=
  (persona_style_isolation (some "") none).1 _ (by decide)


/-! Claim C5: deterministic selector characterization. -/

theorem keyedLe_total (key : α → Int) (a b : Nat × α) :
    keyedLe key a b = true ∨ keyedLe key b a = true := by
  unfold keyedLe
  by_cases h1 : key a.2 < key b.2
  · left; simp [h1]
  · by_cases h2 : key b.2 < key a.2
    · right; simp [h2]
    · have he : key a.2 = key b.2 := le_antisymm (not_lt.mp h2) (not_lt.mp h1)
      rcases Nat.le_total a.1 b.1 with h | h
      · left; simp [he, h]
      · right; simp [he.symm, h]

theorem keyedLe_trans (key : α → Int) (a b c : Nat × α)
    (h1 : keyedLe key a b = true) (h2 : keyedLe key b c = true) :
    keyedLe key a c = true := by
  unfold keyedLe at h1 h2 ⊢
  simp only [Bool.or_eq_true, decide_eq_true_iff, Bool.and_eq_true,
    beq_iff_eq] at h1 h2 ⊢
  rcases h1 with h1 | ⟨h1e, h1i⟩ <;> rcases h2 with h2 | ⟨h2e, h2i⟩
  · left; omega
  · left; omega
  · left; omega
  · right
    refine ⟨by omega, ?_⟩
    omega

theorem enum_pairwise_lt (l : List α) : l.enum.Pairwise (fun a b => a.1 < b.1) := by
  have h1 : (l.enum.map Prod.fst).Pairwise (· < ·) := by
    rw [List.enum_map_fst]
    exact List.pairwise_lt_range _
  exact (List.pairwise_map).mp h1

theorem sortKeyed_pairwise (key : α → Int) (l : List α) :
    (sortKeyed key l).Pairwise (fun a b =>
      key a.2 < key b.2 ∨ (key a.2 = key b.2 ∧ a.1 < b.1)) := by
  have hs : (sortKeyed key l).Pairwise (fun a b => keyedLe key a b = true) := by
    unfold sortKeyed
    haveI : IsTotal (Nat × α) (fun a b => keyedLe key a b = true) := ⟨keyedLe_total key⟩
    haveI : IsTrans (Nat × α) (fun a b => keyedLe key a b = true) :=
      ⟨keyedLe_trans key⟩
    exact List.sorted_insertionSort _ _
  have hne : (sortKeyed key l).Pairwise (fun a b => a.1 ≠ b.1) := by
    have hperm : (sortKeyed key l).Perm l.enum := List.perm_insertionSort _ _
    refine (hperm.pairwise_iff (fun h => Ne.symm h)).mpr ?_
    exact (enum_pairwise_lt l).imp (fun h => Nat.ne_of_lt h)
  refine (hs.and hne).imp ?_
  rintro a b ⟨h1, h2⟩
  unfold keyedLe at h1
  simp only [Bool.or_eq_true, decide_eq_true_iff, Bool.and_eq_true,
    beq_iff_eq] at h1
  rcases h1 with h | ⟨he, hi⟩
  · left; exact h
  · right
    refine ⟨he, ?_⟩
    omega

/-- C5.  For a non-empty style-filtered pool, `selectRandomPhrases` (with
null count) equals: stable-sort the pool ascending by
`hash(text + seed)` with ties in original pool order, take
`min(max(6, 6 + seed mod 3), 8, pool size)` entries, and give position
`i` the id `feedback-{seed}-{i}`; the sorted list is a permutation of
the pool, ascending in the hash key, and equal keys stay in original
order. -/
theorem selector_characterization (cats : List String) (persona : String) (seed : Int)
    (h : stylePool cats persona ≠ []) :
    selectRandomPhrases cats none persona seed =
      ((((sortKeyed (phraseKey seed) (stylePool cats persona)).map (·.2)).take
        (min (max 6 (6 + Int.tmod seed 3))
          (min 8
            (((sortKeyed (phraseKey seed) (stylePool cats persona)).map
              (·.2)).length : Int))).toNat).enum.map
        fun ip => Item.of ip.2 ("feedback-" ++ intDec seed ++ "-" ++ natDec ip.1)) ∧
      ((sortKeyed (phraseKey seed) (stylePool cats persona)).map (·.2)).Perm
        (stylePool cats persona) ∧
      (sortKeyed (phraseKey seed) (stylePool cats persona)).Pairwise
        (fun a b => phraseKey seed a.2 < phraseKey seed b.2 ∨
          (phraseKey seed a.2 = phraseKey seed b.2 ∧ a.1 < b.1)) := by
  refine ⟨?_, sortKeyed_map_perm _ _, sortKeyed_pairwise _ _⟩
  unfold selectRandomPhrases
  rw [if_neg (by simp [List.isEmpty_eq_false.mpr h])]
  rw [Option.getD_none]

theorem selector_characterization_witness :
    ((sortKeyed (phraseKey 0)
        (stylePool ["usability", "hierarchy"] "General Designer")).map (·.2)).Perm
      (stylePool ["usability", "hierarchy"] "General Designer") :=
  (selector_characterization ["usability", "hierarchy"] "General Designer" 0
    (by decide)).2.1


/-! Claim C6: persona prioritizer ordering. -/

theorem prefRank_eq (prefs : List String) (x : Item) :
    prefRank prefs x =
      (if prefs.contains x.category = true then 0 else 2) +
        (if x.ptype = .issue then 0 else 1) := by
  unfold prefRank
  by_cases h : prefs.contains x.category = true <;> simp [h]

theorem personaCmp_charact (prefs : List String) (a b : Item) :
    (personaCmp prefs a b < 0 ↔ prefRank prefs a < prefRank prefs b) ∧
      (personaCmp prefs a b = 0 ↔ prefRank prefs a = prefRank prefs b) := by
  unfold personaCmp prefRank
  by_cases ha : a.category ∈ prefs <;>
    by_cases hb : b.category ∈ prefs <;>
      cases hpa : a.ptype <;> cases hpb : b.ptype <;>
        simp [ha, hb, hpa, hpb] <;> omega

theorem personaLe_iff (prefs : List String) (x y : Nat × Item) :
    personaLe prefs x y = true ↔
      (prefRank prefs x.2 < prefRank prefs y.2 ∨
        (prefRank prefs x.2 = prefRank prefs y.2 ∧ x.1 ≤ y.1)) := by
  unfold personaLe
  have h := personaCmp_charact prefs x.2 y.2
  simp only [Bool.or_eq_true, decide_eq_true_iff, Bool.and_eq_true, beq_iff_eq]
  constructor
  · rintro (h1 | ⟨h1, h2⟩)
    · left; exact h.1.mp h1
    · right; exact ⟨h.2.mp h1, by simpa using h2⟩
  · rintro (h1 | ⟨h1, h2⟩)
    · left; exact h.1.mpr h1
    · right; exact ⟨h.2.mpr h1, by simpa using h2⟩

theorem filterByPersonaKeyed_pairwise (fb : List Item) (persona : String) :
    (filterByPersonaKeyed fb persona).Pairwise (fun a b =>
      prefRank (preferredOf persona) a.2 < prefRank (preferredOf persona) b.2 ∨
        (prefRank (preferredOf persona) a.2 = prefRank (preferredOf persona) b.2 ∧
          a.1 < b.1)) := by
  have hs : (filterByPersonaKeyed fb persona).Pairwise
      (fun a b => personaLe (preferredOf persona) a b = true) := by
    unfold filterByPersonaKeyed
    haveI : IsTotal (Nat × Item)
        (fun a b => personaLe (preferredOf persona) a b = true) :=
      ⟨fun a b => by rw [personaLe_iff, personaLe_iff]; omega⟩
    haveI : IsTrans (Nat × Item)
        (fun a b => personaLe (preferredOf persona) a b = true) :=
      ⟨fun a b c h1 h2 => by
        rw [personaLe_iff] at h1 h2 ⊢
        omega⟩
    exact List.sorted_insertionSort _ _
  have hne : (filterByPersonaKeyed fb persona).Pairwise (fun a b => a.1 ≠ b.1) := by
    have hperm : (filterByPersonaKeyed fb persona).Perm fb.enum :=
      List.perm_insertionSort _ _
    refine (hperm.pairwise_iff (fun h => Ne.symm h)).mpr ?_
    exact (enum_pairwise_lt fb).imp (fun h => Nat.ne_of_lt h)
  refine (hs.and hne).imp ?_
  rintro a b ⟨h1, h2⟩
  rw [personaLe_iff] at h1
  omega

theorem mem_iff_contains (l : List String) (x : String) :
    x ∈ l ↔ l.contains x = true := by simp

/-- C6.  `filterByPersona` returns a permutation in which preferred
categories precede non-preferred ones, issues precede positives within
each of those partitions, ties keep the original input order (shown on
the index-tagged sort), and an unknown persona falls back to the
General Designer preferred list. -/
theorem persona_prioritizer_spec (fb : List Item) (persona : String) :
    (filterByPersona fb persona).Perm fb ∧
      (filterByPersona fb persona).Pairwise (fun a b =>
        b.category ∈ preferredOf persona → a.category ∈ preferredOf persona) ∧
      (filterByPersona fb persona).Pairwise (fun a b =>
        (a.category ∈ preferredOf persona ↔ b.category ∈ preferredOf persona) →
          a.ptype = .positive → b.ptype = .positive) ∧
      (fb ≠ [] →
        filterByPersona fb persona = (filterByPersonaKeyed fb persona).map (·.2)) ∧
      (filterByPersonaKeyed fb persona).Pairwise (fun a b =>
        personaCmp (preferredOf persona) a.2 b.2 = 0 → a.1 < b.1) ∧
      (persona ∉ ["End-User", "Stakeholder", "Accessibility Expert",
          "General Designer"] →
        preferredOf persona = ["hierarchy", "usability", "navigation"]) := by
  have hkey := filterByPersonaKeyed_pairwise fb persona
  have hitems : (filterByPersona fb persona).Pairwise (fun x y =>
      prefRank (preferredOf persona) x < prefRank (preferredOf persona) y ∨
        prefRank (preferredOf persona) x = prefRank (preferredOf persona) y) := by
    unfold filterByPersona
    split
    case isTrue h => rw [List.isEmpty_iff.mp h]; exact List.Pairwise.nil
    case isFalse h =>
      refine (List.pairwise_map).mpr (hkey.imp ?_)
      rintro a b (h1 | ⟨h1, _⟩)
      · left; exact h1
      · right; exact h1
  refine ⟨filterByPersona_perm fb persona, ?_, ?_, ?_, ?_, ?_⟩
  · refine hitems.imp ?_
    intro x y h1 hy
    rw [mem_iff_contains] at hy ⊢
    by_contra hx
    rw [Bool.not_eq_true] at hx
    rw [prefRank_eq, prefRank_eq, hy, hx] at h1
    rcases h1 with h1 | h1 <;>
      cases hxp : x.ptype <;> cases hyp : y.ptype <;> simp [hxp, hyp] at h1
  · refine hitems.imp ?_
    intro x y h1 hiff hpos
    by_contra hyneg
    have hyiss : y.ptype = .issue := by
      cases hy : y.ptype
      · rfl
      · exact absurd hy hyneg
    rw [prefRank_eq, prefRank_eq, hpos, hyiss] at h1
    by_cases hc : (preferredOf persona).contains x.category = true
    · have hc2 : (preferredOf persona).contains y.category = true := by
        rw [← mem_iff_contains] at hc ⊢
        exact hiff.mp hc
      rw [hc, hc2] at h1
      simp at h1
    · have hc2 : (preferredOf persona).contains y.category = false := by
        rw [Bool.eq_false_iff]
        intro hcy
        rw [← mem_iff_contains] at hcy
        exact hc ((mem_iff_contains _ _).mp (hiff.mpr hcy))
      rw [Bool.not_eq_true] at hc
      rw [hc, hc2] at h1
      simp at h1
  · intro hne
    unfold filterByPersona
    rw [if_neg (by simpa [List.isEmpty_iff] using hne)]
  · refine hkey.imp ?_
    rintro a b (h1 | ⟨h1, h2⟩)
    · intro hcmp
      have := (personaCmp_charact (preferredOf persona) a.2 b.2).2.mp hcmp
      omega
    · intro _
      exact h2
  · intro h
    simp only [List.mem_cons, List.not_mem_nil, or_false, not_or] at h
    unfold preferredOf
    rw [if_neg h.1, if_neg h.2.1, if_neg h.2.2.1]

theorem persona_prioritizer_spec_witness :
    preferredOf "Product Owner" = ["hierarchy", "usability", "navigation"] :=
  (persona_prioritizer_spec [] "Product Owner").2.2.2.2.2 (by decide)


/-! Claim C9: next-test-steps bounds and top-category head line. -/

theorem contains_mem (l : List String) (x : String) :
    l.contains x = true ↔ x ∈ l := by
  simp [List.contains]

theorem lookIss_bump (acc : List (String × Nat × Nat)) (k : String) (b : Bool)
    (c : String) :
    lookIss (bumpCat acc k b) c =
      lookIss acc c + (if c = k ∧ b = true then 1 else 0) := by
  induction acc with
  | nil =>
    by_cases hck : c = k
    · subst hck
      cases b <;> simp [bumpCat, lookIss]
    · cases b <;> simp [bumpCat, lookIss, hck, Ne.symm hck]
  | cons e racc ih =>
    obtain ⟨ec, ei, es⟩ := e
    by_cases hek : ec = k
    · subst hek
      by_cases hc : ec = c
      · subst hc
        cases b <;> simp [bumpCat, lookIss]
      · cases b <;> simp [bumpCat, lookIss, hc, Ne.symm hc]
    · by_cases hc : ec = c
      · subst hc
        simp [bumpCat, lookIss, hek]
      · simp [bumpCat, lookIss, hek, hc, ih]

theorem lookIss_foldl (l : List Item) :
    ∀ (acc : List (String × Nat × Nat)) (c : String),
      lookIss
          (l.foldl (fun a f => bumpCat a (stepCat f) (f.ptype = Polarity.issue)) acc)
          c =
        lookIss acc c + issueCnt l c := by
  induction l with
  | nil => intro acc c; simp [issueCnt]
  | cons f fs ih =>
    intro acc c
    rw [List.foldl_cons, ih, lookIss_bump]
    unfold issueCnt
    rw [List.countP_cons]
    by_cases h1 : stepCat f = c
    · by_cases h2 : f.ptype = Polarity.issue <;> simp [h1, h2, issueCnt] <;> omega
    · by_cases h2 : f.ptype = Polarity.issue <;>
        simp [h1, Ne.symm h1, h2, issueCnt] <;> omega

theorem byCategory_look (fb : List Item) (c : String) :
    lookIss (byCategory fb) c = issueCnt fb c := by
  unfold byCategory
  rw [lookIss_foldl]
  simp [lookIss]

theorem lookIss_mem (acc : List (String × Nat × Nat)) (c : String) :
    lookIss acc c ≠ 0 → ∃ e ∈ acc, e.1 = c ∧ e.2.1 = lookIss acc c := by
  induction acc with
  | nil => intro h; simp [lookIss] at h
  | cons e r ih =>
    intro h
    by_cases hec : e.1 = c
    · exact ⟨e, List.mem_cons_self e r, hec, by simp [lookIss, hec]⟩
    · have h2 : lookIss r c ≠ 0 := by simpa [lookIss, hec] using h
      obtain ⟨e2, he2, hc2, hv2⟩ := ih h2
      refine ⟨e2, List.mem_cons_of_mem e he2, hc2, ?_⟩
      simp only [lookIss]
      rw [if_neg hec]
      exact hv2

theorem bumpCat_fst (acc : List (String × Nat × Nat)) (k : String) (b : Bool) :
    (bumpCat acc k b).map (·.1) =
      if k ∈ acc.map (·.1) then acc.map (·.1) else acc.map (·.1) ++ [k] := by
  induction acc with
  | nil => cases b <;> simp [bumpCat]
  | cons e r ih =>
    obtain ⟨ec, ei, es⟩ := e
    by_cases hek : ec = k
    · subst hek
      cases b <;> simp [bumpCat]
    · by_cases hkr : k ∈ r.map (·.1)
      · simp [bumpCat, hek, ih, hkr, Ne.symm hek]
      · simp [bumpCat, hek, ih, hkr, Ne.symm hek]

theorem bumpCat_pairwise (acc : List (String × Nat × Nat)) (k : String) (b : Bool)
    (h : acc.Pairwise (fun a b => a.1 ≠ b.1)) :
    (bumpCat acc k b).Pairwise (fun a b => a.1 ≠ b.1) := by
  have hmap : ((bumpCat acc k b).map (·.1)).Pairwise (· ≠ ·) := by
    rw [bumpCat_fst]
    split
    · exact (List.pairwise_map).mpr h
    case isFalse hk =>
      rw [List.pairwise_append]
      refine ⟨(List.pairwise_map).mpr h, List.pairwise_singleton _ _, ?_⟩
      intro x hx y hy
      simp only [List.mem_singleton] at hy
      subst hy
      intro he
      exact hk (he ▸ hx)
  exact (List.pairwise_map).mp hmap

theorem byCategory_pairwise (fb : List Item) :
    (byCategory fb).Pairwise (fun a b => a.1 ≠ b.1) := by
  suffices h : ∀ (l : List Item) (acc : List (String × Nat × Nat)),
      acc.Pairwise (fun a b => a.1 ≠ b.1) →
        (l.foldl (fun a f => bumpCat a (stepCat f) (f.ptype = Polarity.issue))
            acc).Pairwise (fun a b => a.1 ≠ b.1) by
    exact h fb [] List.Pairwise.nil
  intro l
  induction l with
  | nil => intro acc hacc; simpa using hacc
  | cons f fs ih =>
    intro acc hacc
    rw [List.foldl_cons]
    exact ih _ (bumpCat_pairwise _ _ _ hacc)

theorem lookIss_of_mem (acc : List (String × Nat × Nat))
    (h : acc.Pairwise (fun a b => a.1 ≠ b.1)) :
    ∀ e ∈ acc, lookIss acc e.1 = e.2.1 := by
  induction acc with
  | nil => intro e he; simp at he
  | cons a r ih =>
    rw [List.pairwise_cons] at h
    intro e he
    rcases List.mem_cons.mp he with rfl | her
    · simp [lookIss]
    · have hne : a.1 ≠ e.1 := h.1 e her
      have hv := ih h.2 e her
      simp only [lookIss]
      rw [if_neg hne]
      exact hv

theorem byCategory_val (fb : List Item) :
    ∀ e ∈ byCategory fb, e.2.1 = issueCnt fb e.1 := by
  intro e he
  rw [← byCategory_look]
  exact (lookIss_of_mem _ (byCategory_pairwise fb) e he).symm

theorem issueCnt_pos (fb : List Item) (f : Item) (hf : f ∈ fb)
    (hi : f.ptype = Polarity.issue) : 0 < issueCnt fb (stepCat f) := by
  unfold issueCnt
  refine List.countP_pos.mpr ⟨f, hf, ?_⟩
  simp [hi]

theorem sortedCategories_spec (fb : List Item)
    (hiss : ∃ f ∈ fb, f.ptype = Polarity.issue) :
    ∃ t rest, sortedCategories fb = t :: rest ∧ t.2.1 = issueCnt fb t.1 ∧
      0 < t.2.1 ∧ ∀ c, issueCnt fb c ≤ t.2.1 := by
  obtain ⟨f, hf, hfi⟩ := hiss
  have hpos := issueCnt_pos fb f hf hfi
  have hlk := byCategory_look fb (stepCat f)
  obtain ⟨e, he, hec, hev⟩ := lookIss_mem (byCategory fb) (stepCat f) (by omega)
  have hecnt : e.2.1 = issueCnt fb e.1 := byCategory_val fb e he
  have hepos : 0 < e.2.1 := by
    rw [hecnt, hec]
    exact hpos
  have hmemf : e ∈ (byCategory fb).filter fun e => e.2.1 > 0 := by
    rw [List.mem_filter]
    exact ⟨he, by simpa using hepos⟩
  have hperm : (sortedCategories fb).Perm
      ((byCategory fb).filter fun e => e.2.1 > 0) := by
    unfold sortedCategories
    exact sortKeyed_map_perm _ _
  have hne : sortedCategories fb ≠ [] := by
    intro h0
    rw [h0] at hperm
    have h1 : ((byCategory fb).filter fun e => e.2.1 > 0) = [] :=
      List.perm_nil.mp hperm.symm
    exact absurd (h1 ▸ hmemf) (List.not_mem_nil e)
  cases hsc : sortedCategories fb with
  | nil => exact absurd hsc hne
  | cons t rest =>
    have htmem : t ∈ sortedCategories fb := by
      rw [hsc]
      exact List.mem_cons_self t rest
    have htf : t ∈ (byCategory fb).filter fun e => e.2.1 > 0 :=
      hperm.subset htmem
    have htval : t.2.1 = issueCnt fb t.1 :=
      byCategory_val fb t (List.mem_filter.mp htf).1
    have htpos : 0 < t.2.1 := by
      have := (List.mem_filter.mp htf).2
      simpa using this
    have hmax_sorted : ∀ x ∈ sortedCategories fb, x.2.1 ≤ t.2.1 := by
      have hpw := sortKeyed_pairwise (fun e => -((e.2.1 : Int)))
        ((byCategory fb).filter fun e => e.2.1 > 0)
      have hmap : sortedCategories fb =
          (sortKeyed (fun e => -((e.2.1 : Int)))
            ((byCategory fb).filter fun e => e.2.1 > 0)).map (·.2) := rfl
      cases hs : sortKeyed (fun e => -((e.2.1 : Int)))
          ((byCategory fb).filter fun e => e.2.1 > 0) with
      | nil =>
        rw [hs] at hmap
        rw [hmap] at hsc
        simp at hsc
      | cons p ps =>
        rw [hs] at hmap
        have hpt : p.2 = t := by
          rw [hmap] at hsc
          simp only [List.map_cons, List.cons.injEq] at hsc
          exact hsc.1
        rw [hs, List.pairwise_cons] at hpw
        intro x hx
        rw [hmap] at hx
        simp only [List.map_cons, List.mem_cons] at hx
        rcases hx with rfl | hx2
        · rw [hpt]
        · rw [List.mem_map] at hx2
          obtain ⟨b, hb, hbx⟩ := hx2
          have hrel := hpw.1 b hb
          rw [hpt] at hrel
          rcases hrel with h | ⟨h, _⟩ <;> rw [← hbx] <;> omega
    refine ⟨t, rest, rfl, htval, htpos, ?_⟩
    intro c
    rcases Nat.eq_zero_or_pos (issueCnt fb c) with h0 | hpc
    · omega
    · have hlk2 : lookIss (byCategory fb) c ≠ 0 := by
        rw [byCategory_look]
        omega
      obtain ⟨e2, he2, hc2, hv2⟩ := lookIss_mem _ _ hlk2
      have he2v : e2.2.1 = issueCnt fb e2.1 := byCategory_val fb e2 he2
      have hcnt : issueCnt fb c = e2.2.1 := by
        rw [he2v, hc2]
      have he2f : e2 ∈ (byCategory fb).filter fun e => e.2.1 > 0 := by
        rw [List.mem_filter]
        refine ⟨he2, by simp; omega⟩
      have he2s : e2 ∈ sortedCategories fb := hperm.symm.subset he2f
      rw [hcnt]
      exact hmax_sorted e2 he2s

theorem gen_some_eq (f : Item) (fs : List Item) (persona : String) :
    generateNextTestSteps (some (f :: fs)) persona =
      finalizeSteps (uniqueSugg (f :: fs) persona) := rfl

theorem setDedup_cons_nil (x : String) (xs : List String) :
    setDedup [] (x :: xs) = x :: setDedup [x] xs := rfl

theorem padOnce_shape (l : List String) (f : String) :
    padOnce l f = l ∨ padOnce l f = l ++ [f] := by
  unfold padOnce
  split
  · exact Or.inl rfl
  · split
    · exact Or.inl rfl
    · exact Or.inr rfl

theorem finalizeSteps_head (x : String) (l : List String) :
    (finalizeSteps (x :: l)).head? = some x := by
  unfold finalizeSteps
  split
  · rfl
  · split
    · rcases padOnce_shape (x :: l)
          "Run a short usability test with 3–5 participants." with h1 | h1 <;>
        rw [h1]
      · rcases padOnce_shape (x :: l)
            "Capture where users hesitate or get stuck." with h2 | h2 <;>
          rw [h2] <;> rfl
      · rw [List.cons_append]
        rcases padOnce_shape
            (x :: (l ++ ["Run a short usability test with 3–5 participants."]))
            "Capture where users hesitate or get stuck." with h2 | h2 <;>
          rw [h2] <;> rfl
    · rfl

theorem suggAll_cons (fb : List Item) (persona : String) (t : String × Nat × Nat)
    (rest : List (String × Nat × Nat)) (hsc : sortedCategories fb = t :: rest) :
    ∃ tl, suggAll fb persona = topLine t.1 t.2.1 :: tl := by
  unfold suggAll sugg1234 sugg123 sugg12
  rw [hsc]
  exact ⟨_, rfl⟩

theorem uniqueSugg_cons (fb : List Item) (persona : String) (t : String × Nat × Nat)
    (rest : List (String × Nat × Nat)) (hsc : sortedCategories fb = t :: rest) :
    ∃ tl, uniqueSugg fb persona = topLine t.1 t.2.1 :: tl := by
  obtain ⟨tl, h⟩ := suggAll_cons fb persona t rest hsc
  refine ⟨setDedup [topLine t.1 t.2.1] tl, ?_⟩
  unfold uniqueSugg
  rw [h, setDedup_cons_nil]

theorem gen_head (f : Item) (fs : List Item) (persona : String)
    (t : String × Nat × Nat) (rest : List (String × Nat × Nat))
    (hsc : sortedCategories (f :: fs) = t :: rest) :
    (generateNextTestSteps (some (f :: fs)) persona).head? =
      some (topLine t.1 t.2.1) := by
  obtain ⟨tl, h⟩ := uniqueSugg_cons (f :: fs) persona t rest hsc
  rw [gen_some_eq, h]
  exact finalizeSteps_head _ _

theorem topLine_pre (cat : String) (n : Nat) :
    codes "Prioritize testing " <+: codes (topLine cat n) := by
  unfold topLine
  rw [codes_append, codes_append, codes_append, codes_append, codes_append,
    codes_append]
  exact ((((List.prefix_append _ _).trans (List.prefix_append _ _)).trans
    ((List.prefix_append _ _))).trans (List.prefix_append _ _)).trans
    (List.prefix_append _ _) |>.trans (List.prefix_append _ _)

theorem topLine_code0 (cat : String) (n : Nat) :
    (codes (topLine cat n)).getD 0 0 = 80 := by
  rw [getD_of_pre _ _ (topLine_pre cat n) 0 (by decide)]
  decide

theorem also_code0 (lab : String) :
    (codes ("Also validate " ++ lab ++ ".")).getD 0 0 = 65 := by
  have hpre : codes "Also validate " <+: codes ("Also validate " ++ lab ++ ".") := by
    rw [codes_append, codes_append]
    exact (List.prefix_append _ _).trans (List.prefix_append _ _)
  rw [getD_of_pre _ _ hpre 0 (by decide)]
  decide

theorem pq_code0 (p : String) : (codes (personaQuestion p)).getD 0 0 = 65 := by
  unfold personaQuestion
  split
  · decide
  · split
    · decide
    · split
      · decide
      · decide

theorem pt_code0 (p : String) :
    (codes (personaTarget p)).getD 0 0 = 70 ∨
      (codes (personaTarget p)).getD 0 0 = 73 := by
  unfold personaTarget
  split
  · left; decide
  · split
    · left; decide
    · split
      · right; decide
      · left; decide

theorem sugg12_code0 (fb : List Item) :
    ∀ x ∈ sugg12 fb, (codes x).getD 0 0 ∈ ([80, 65] : List Nat) := by
  intro x hx
  unfold sugg12 at hx
  rcases List.mem_append.mp hx with h1 | h1
  · rcases hsc : sortedCategories fb with _ | ⟨t, rest⟩ <;> rw [hsc] at h1
    · simp at h1
    · change x ∈ [topLine t.1 t.2.1] at h1
      rw [List.mem_singleton] at h1
      rw [h1, topLine_code0]
      decide
  · rcases hsc : sortedCategories fb with _ | ⟨t, _ | ⟨s2, r⟩⟩ <;> rw [hsc] at h1
    · change x ∈ ([] : List String) at h1
      simp at h1
    · change x ∈ ([] : List String) at h1
      simp at h1
    · change x ∈ ["Also validate " ++ categoryLabel s2.1 ++ "."] at h1
      rw [List.mem_singleton] at h1
      rw [h1, also_code0]
      decide

theorem suggAll_code0 (fb : List Item) (persona : String) :
    ∀ x ∈ suggAll fb persona,
      (codes x).getD 0 0 ∈ ([80, 65, 70, 73, 84] : List Nat) := by
  intro x hx
  unfold suggAll at hx
  rcases List.mem_append.mp hx with h4 | h5
  · unfold sugg1234 at h4
    rcases List.mem_append.mp h4 with h3 | h4b
    · unfold sugg123 at h3
      rcases List.mem_append.mp h3 with h2 | h3b
      · have hc := sugg12_code0 fb x h2
        rcases (by simpa using hc :
            (codes x).getD 0 0 = 80 ∨ (codes x).getD 0 0 = 65) with h | h <;>
          rw [h] <;> decide
      · by_cases hc : (sugg12 fb).contains (personaQuestion persona) = true
        · rw [if_pos hc] at h3b
          simp at h3b
        · rw [if_neg hc] at h3b
          rw [List.mem_singleton] at h3b
          rw [h3b, pq_code0]
          decide
    · by_cases hc : (sugg123 fb persona).contains (personaTarget persona) = true
      · rw [if_pos hc] at h4b
        simp at h4b
      · rw [if_neg hc] at h4b
        rw [List.mem_singleton] at h4b
        rcases pt_code0 persona with h | h <;> rw [h4b, h] <;> decide
  · unfold hintSugg at h5
    by_cases hm : ((fb.map fun f => lowerStr f.category).contains "mobile") = true
    · rw [if_pos hm] at h5
      rw [List.mem_singleton] at h5
      rw [h5]
      decide
    · rw [if_neg hm] at h5
      by_cases hf : ((fb.map fun f => lowerStr f.category).contains "form") = true
      · rw [if_pos hf] at h5
        rw [List.mem_singleton] at h5
        rw [h5]
        decide
      · rw [if_neg hf] at h5
        simp at h5

theorem q_mem_suggAll (fb : List Item) (persona : String) :
    personaQuestion persona ∈ suggAll fb persona := by
  unfold suggAll sugg1234 sugg123
  by_cases h : (sugg12 fb).contains (personaQuestion persona) = true
  · have hm : personaQuestion persona ∈ sugg12 fb := (contains_mem _ _).mp h
    exact List.mem_append_left _ (List.mem_append_left _ (List.mem_append_left _ hm))
  · rw [if_neg h]
    exact List.mem_append_left _
      (List.mem_append_left _
        (List.mem_append_right _ (List.mem_singleton_self _)))

theorem uniqueSugg_ne_nil (fb : List Item) (persona : String) :
    uniqueSugg fb persona ≠ [] := by
  have hq : personaQuestion persona ∈ uniqueSugg fb persona := by
    unfold uniqueSugg
    exact (setDedup_mem _ _ _).mpr ⟨q_mem_suggAll fb persona, List.not_mem_nil _⟩
  exact List.ne_nil_of_mem hq

theorem run_not_mem_unique (fb : List Item) (persona : String) :
    "Run a short usability test with 3–5 participants." ∉ uniqueSugg fb persona := by
  intro hmem
  have h1 := (setDedup_mem _ _ _).mp hmem
  have h2 := suggAll_code0 fb persona _ h1.1
  rw [show (codes "Run a short usability test with 3–5 participants.").getD 0 0 = 82
    from by decide] at h2
  exact absurd h2 (by decide)

theorem capture_not_mem_unique (fb : List Item) (persona : String) :
    "Capture where users hesitate or get stuck." ∉ uniqueSugg fb persona := by
  intro hmem
  have h1 := (setDedup_mem _ _ _).mp hmem
  have h2 := suggAll_code0 fb persona _ h1.1
  rw [show (codes "Capture where users hesitate or get stuck.").getD 0 0 = 67
    from by decide] at h2
  exact absurd h2 (by decide)

theorem finalizeSteps_bounds (u : List String) (hne : u ≠ [])
    (h1 : "Run a short usability test with 3–5 participants." ∉ u)
    (h2 : "Capture where users hesitate or get stuck." ∉ u) :
    3 ≤ (finalizeSteps u).length ∧ (finalizeSteps u).length ≤ 5 := by
  have hlen : 1 ≤ u.length := List.length_pos.mpr hne
  unfold finalizeSteps
  split
  case isTrue h => rw [List.length_take]; omega
  case isFalse h =>
    split
    case isTrue h3 =>
      have hp1 : padOnce u "Run a short usability test with 3–5 participants." =
          u ++ ["Run a short usability test with 3–5 participants."] := by
        unfold padOnce
        rw [if_neg (by omega), if_neg (fun hc => h1 ((contains_mem _ _).mp hc))]
      have hp2 : padOnce (u ++ ["Run a short usability test with 3–5 participants."])
            "Capture where users hesitate or get stuck." =
          (u ++ ["Run a short usability test with 3–5 participants."]) ++
            ["Capture where users hesitate or get stuck."] := by
        unfold padOnce
        rw [if_neg (by rw [List.length_append]; simp; omega),
          if_neg (fun hc => by
            rcases List.mem_append.mp ((contains_mem _ _).mp hc) with hu | hs
            · exact h2 hu
            · simp at hs)]
      rw [hp1, hp2, List.length_take, List.length_append, List.length_append]
      simp only [List.length_singleton]
      omega
    case isFalse h3 => rw [List.length_take]; omega

/-- C9.  `generateNextTestSteps` returns between 3 and 5 suggestions for
every input (including a non-array or empty feedback list), and when at
least one feedback item is an issue, the first suggestion is the
`Prioritize testing …` line for a category whose issue count is maximal. -/
theorem next_steps_spec :
    (∀ (feedbacks : Option (List Item)) (persona : String),
        3 ≤ (generateNextTestSteps feedbacks persona).length ∧
          (generateNextTestSteps feedbacks persona).length ≤ 5) ∧
      (∀ (fb : List Item) (persona : String),
        (∃ f ∈ fb, f.ptype = Polarity.issue) →
          ∃ c n,
            (generateNextTestSteps (some fb) persona).head? =
                some (topLine c n) ∧
              n = issueCnt fb c ∧ 0 < n ∧ ∀ c2, issueCnt fb c2 ≤ n) := by
  constructor
  · intro feedbacks persona
    match feedbacks with
    | none =>
      exact ⟨Nat.le_refl 3, Nat.le_succ_of_le (Nat.le_succ_of_le (Nat.le_refl 3))⟩
    | some [] =>
      exact ⟨Nat.le_refl 3, Nat.le_succ_of_le (Nat.le_succ_of_le (Nat.le_refl 3))⟩
    | some (f :: fs) =>
      rw [gen_some_eq]
      exact finalizeSteps_bounds _ (uniqueSugg_ne_nil _ _)
        (run_not_mem_unique _ _) (capture_not_mem_unique _ _)
  · intro fb persona hiss
    obtain ⟨t, rest, hsc, hval, hpos, hmax⟩ := sortedCategories_spec fb hiss
    obtain ⟨f0, hf0, _⟩ := hiss
    cases fb with
    | nil => exact absurd hf0 (List.not_mem_nil f0)
    | cons f fs =>
      exact ⟨t.1, t.2.1, gen_head f fs persona t rest hsc, hval, hpos, hmax⟩

theorem next_steps_spec_witness :
    ∃ c n,
      (generateNextTestSteps
          (some [⟨"t", "mobile", Polarity.issue, none, "i"⟩]) "End-User").head? =
        some (topLine c n) ∧
        n = issueCnt [⟨"t", "mobile", Polarity.issue, none, "i"⟩] c ∧ 0 < n ∧
        ∀ c2, issueCnt [⟨"t", "mobile", Polarity.issue, none, "i"⟩] c2 ≤ n :=
  next_steps_spec.2 [⟨"t", "mobile", Polarity.issue, none, "i"⟩] "End-User"
    ⟨⟨"t", "mobile", Polarity.issue, none, "i"⟩, List.mem_cons_self _ _, rfl⟩


end WFC
